import Mathlib

/-!
# caddy-gcp-secret-manager: storage engine and lock manager

A shallow embedding of `storage.go` and of `Validate` from `caddy.go`.

* Go maps (`etags`, `locks`) are association lists with the Go read, write and
  `delete` operations.
* The Secret Manager client is a record of state-passing functions over an
  arbitrary backend state; every request issued through it is appended to a
  ghost trace, so that "no request is made" can be stated.
* Methods of `SecretManagerStorage` take the instance state and the world
  (backend state and trace) and return the updated ones. Go maps are reference
  types, so the writes made through value receivers are kept as well.
-/

set_option autoImplicit false

namespace CaddyGcpSecretManager

/-! ## Go values -/

/-- Go `[]byte`. -/
abbrev Bytes := List UInt8

/-- Go `map[string]V`, as an association list with at most the first binding of a key live. -/
abbrev GoMap (V : Type) := List (String × V)

namespace GoMap

variable {V : Type}

/-- The comma-ok read `v, ok := m[k]`. -/
def get? (m : GoMap V) (k : String) : Option V :=
  match m with
  | [] => none
  | (k', v) :: rest => if k' = k then some v else get? rest k

/-- Go `delete(m, k)`. -/
def delete (m : GoMap V) (k : String) : GoMap V :=
  match m with
  | [] => []
  | (k', v) :: rest => if k' = k then delete rest k else (k', v) :: delete rest k

/-- Go `m[k] = v`. -/
def set (m : GoMap V) (k : String) (v : V) : GoMap V :=
  (k, v) :: delete m k

end GoMap

/-- Go `m[k]` on a `map[string]bool`: the zero value `false` when the key is missing. -/
def lookupBool (m : GoMap Bool) (k : String) : Bool :=
  (m.get? k).getD false

/-- Go `m[k]` on a `map[string]string`: the zero value `""` when the key is missing. -/
def lookupString (m : GoMap String) (k : String) : String :=
  (m.get? k).getD ""

/-- Go `strings.HasSuffix(s, suffix)`:
`len(s) >= len(suffix) && s[len(s)-len(suffix):] == suffix`. -/
def strings_HasSuffix (s suffix : String) : Bool :=
  decide (suffix.data.length ≤ s.data.length) &&
    decide (s.data.drop (s.data.length - suffix.data.length) = suffix.data)

/-- Go `strings.Split(s, "/")` on the characters of `s`: the pieces between the
separators, always at least one piece. -/
def splitSlash : List Char → List (List Char)
  | [] => [[]]
  | c :: cs =>
    if c = '/' then [] :: splitSlash cs
    else
      match splitSlash cs with
      | [] => [[c]]
      | p :: ps => (c :: p) :: ps

/-- The Go expression `parts[len(parts)-1]` for `parts := strings.Split(name, "/")`. -/
def lastPart (name : String) : String :=
  String.mk ((splitSlash name.data).getLastD [])

/-! ## Errors -/

/-- An error returned by the Secret Manager client: a gRPC status. -/
structure Status where
  code : Nat
  message : String
  deriving DecidableEq, Repr

/-- The value of `ctx.Err()` once a context is done. -/
inductive CtxErr where
  | canceled
  | deadlineExceeded
  deriving DecidableEq, Repr

/-- A `context.Context`, observed through `ctx.Err()`: `none` while the context is live. -/
structure Context where
  Err : Option CtxErr
  deriving DecidableEq, Repr

/-- Go `context.Background()`. -/
def Context.Background : Context := ⟨none⟩

/-- An operand of a `fmt.Errorf` call. -/
inductive Operand where
  | str (s : String)
  | locks (m : GoMap Bool)
  | status (e : Status)
  | nilError
  deriving DecidableEq, Repr

/-- Go `error` values that occur in the package. -/
inductive GoError where
  /-- `errors.New(text)`. -/
  | errorString (text : String)
  /-- `fmt.Errorf(format, operands...)` with no `%w` verb: it wraps nothing. -/
  | errorf (format : String) (operands : List Operand)
  /-- An error returned by a call of the service client. -/
  | status (e : Status)
  /-- `ctx.Err()`. -/
  | context (e : CtxErr)
  /-- `retry.RetryableError(inner)`. -/
  | retryable (inner : GoError)
  /-- `errors.Join(a, b)`. -/
  | join (a b : GoError)
  /-- A run-time panic, where Go has no error value to return. -/
  | panic (text : String)
  deriving DecidableEq, Repr

/-- Go `var ErrKeyNotFound = errors.New("unable to find key")`. -/
def ErrKeyNotFound : GoError := .errorString "unable to find key"

/-- Go `errors.Is(err, target)` for a target made by `errors.New`: the chain of
`err` is walked through the wrappers and the joined errors. -/
def errors_Is : GoError → GoError → Bool
  | .retryable inner, target => decide (GoError.retryable inner = target) || errors_Is inner target
  | .join a b, target => decide (GoError.join a b = target) || errors_Is a target || errors_Is b target
  | e, target => decide (e = target)

/-! ## Messages of the service -/

/-- The message `durationpb.Duration`. -/
structure Durationpb where
  Seconds : Int
  Nanos : Int
  deriving DecidableEq, Repr

/-- A Go `time.Duration`: nanoseconds. -/
abbrev Duration := Int

/-- Go `time.Second`. -/
def time_Second : Duration := 1000000000

/-- Go `time.Minute`. -/
def time_Minute : Duration := 60 * time_Second

/-- Go `durationpb.New(d)`: whole seconds and the remaining nanoseconds. -/
def durationpb_New (d : Duration) : Durationpb :=
  let secs := Int.tdiv d 1000000000
  ⟨secs, d - secs * 1000000000⟩

/-- The oneof `Secret.Expiration`. -/
inductive Expiration where
  | Ttl (d : Durationpb)
  | ExpireTime (seconds : Int)
  deriving DecidableEq, Repr

/-- The oneof `Replication.Replication`. -/
inductive Replication where
  | Automatic
  | UserManaged
  deriving DecidableEq, Repr

/-- The message `secretmanagerpb.Secret`; a `nil` field is `none`. -/
structure Secret where
  Name : String
  Replication : Option Replication
  Etag : String
  Expiration : Option Expiration
  deriving DecidableEq, Repr

/-- The message `secretmanagerpb.SecretVersion`. -/
structure SecretVersion where
  Name : String
  Etag : String
  deriving DecidableEq, Repr

/-- The message `secretmanagerpb.CreateSecretRequest`. -/
structure CreateSecretRequest where
  Parent : String
  SecretId : String
  Secret : Secret
  deriving DecidableEq, Repr

/-- The message `secretmanagerpb.AddSecretVersionRequest`. -/
structure AddSecretVersionRequest where
  Parent : String
  Data : Bytes
  deriving DecidableEq, Repr

/-- The message `secretmanagerpb.ListSecretsRequest`. -/
structure ListSecretsRequest where
  Parent : String
  Filter : String
  deriving DecidableEq, Repr

/-- The message `secretmanagerpb.GetSecretVersionRequest`. -/
structure GetSecretVersionRequest where
  Name : String
  deriving DecidableEq, Repr

/-- The message `secretmanagerpb.AccessSecretVersionRequest`. -/
structure AccessSecretVersionRequest where
  Name : String
  deriving DecidableEq, Repr

/-- The message `secretmanagerpb.AccessSecretVersionResponse`. -/
structure AccessSecretVersionResponse where
  Name : String
  Data : Bytes
  deriving DecidableEq, Repr

/-- The message `secretmanagerpb.DeleteSecretRequest`. -/
structure DeleteSecretRequest where
  Name : String
  Etag : String
  deriving DecidableEq, Repr

/-- The `SecretIterator` returned by `ListSecrets`, as the run of its `Next`
calls: `Next` yields `items` one after the other and then keeps returning a
nil secret with `failure`, or with `iterator.Done` when `failure` is `none`. -/
structure SecretIterator where
  items : List Secret
  failure : Option Status
  deriving DecidableEq, Repr

/-- A request issued through the client. -/
inductive Call where
  | CreateSecret (req : CreateSecretRequest)
  | AddSecretVersion (req : AddSecretVersionRequest)
  | ListSecrets (req : ListSecretsRequest)
  | GetSecretVersion (req : GetSecretVersionRequest)
  | AccessSecretVersion (req : AccessSecretVersionRequest)
  | DeleteSecret (req : DeleteSecretRequest)
  deriving DecidableEq, Repr

/-- The behaviour of a `*secretmanager.Client` over a backend state `β`: each
method answers a request in a backend state and gives the next backend state. -/
structure Client (β : Type) where
  CreateSecret : Context → CreateSecretRequest → β → Except Status Secret × β
  AddSecretVersion : Context → AddSecretVersionRequest → β → Except Status SecretVersion × β
  ListSecrets : Context → ListSecretsRequest → β → SecretIterator × β
  GetSecretVersion : Context → GetSecretVersionRequest → β → Except Status SecretVersion × β
  AccessSecretVersion :
    Context → AccessSecretVersionRequest → β → Except Status AccessSecretVersionResponse × β
  DeleteSecret : Context → DeleteSecretRequest → β → Option Status × β

/-- The backend state together with the trace of the requests issued so far. -/
structure World (β : Type) where
  backend : β
  calls : List Call
  deriving DecidableEq

/-- The fields `projectID`, `etags` and `locks` of `SecretManagerStorage`; the
`client` field is the `Client` passed to each method. -/
structure SecretManagerStorage where
  projectID : String
  etags : GoMap String
  locks : GoMap Bool
  deriving DecidableEq, Repr

/-- The maps made by `NewSecretManagerStorage`. -/
def NewSecretManagerStorage (projectID : String) : SecretManagerStorage :=
  ⟨projectID, [], []⟩

/-! ## The client calls, traced -/

namespace World

variable {β : Type}

/-- The call `s.client.CreateSecret(ctx, req)`. -/
def CreateSecret (c : Client β) (ctx : Context) (req : CreateSecretRequest) (w : World β) :
    Except Status Secret × World β :=
  let r := c.CreateSecret ctx req w.backend
  (r.1, ⟨r.2, w.calls ++ [Call.CreateSecret req]⟩)

/-- The call `s.client.AddSecretVersion(ctx, req)`. -/
def AddSecretVersion (c : Client β) (ctx : Context) (req : AddSecretVersionRequest)
    (w : World β) : Except Status SecretVersion × World β :=
  let r := c.AddSecretVersion ctx req w.backend
  (r.1, ⟨r.2, w.calls ++ [Call.AddSecretVersion req]⟩)

/-- The call `s.client.ListSecrets(ctx, req)`. -/
def ListSecrets (c : Client β) (ctx : Context) (req : ListSecretsRequest) (w : World β) :
    SecretIterator × World β :=
  let r := c.ListSecrets ctx req w.backend
  (r.1, ⟨r.2, w.calls ++ [Call.ListSecrets req]⟩)

/-- The call `s.client.GetSecretVersion(ctx, req)`. -/
def GetSecretVersion (c : Client β) (ctx : Context) (req : GetSecretVersionRequest)
    (w : World β) : Except Status SecretVersion × World β :=
  let r := c.GetSecretVersion ctx req w.backend
  (r.1, ⟨r.2, w.calls ++ [Call.GetSecretVersion req]⟩)

/-- The call `s.client.AccessSecretVersion(ctx, req)`. -/
def AccessSecretVersion (c : Client β) (ctx : Context) (req : AccessSecretVersionRequest)
    (w : World β) : Except Status AccessSecretVersionResponse × World β :=
  let r := c.AccessSecretVersion ctx req w.backend
  (r.1, ⟨r.2, w.calls ++ [Call.AccessSecretVersion req]⟩)

/-- The call `s.client.DeleteSecret(ctx, req)`. -/
def DeleteSecret (c : Client β) (ctx : Context) (req : DeleteSecretRequest) (w : World β) :
    Option Status × World β :=
  let r := c.DeleteSecret ctx req w.backend
  (r.1, ⟨r.2, w.calls ++ [Call.DeleteSecret req]⟩)

end World

/-! ## Package `retry` -/

/-- Go `errors.As(err, &rerr)` for `rerr` of type `*retryableError`: whether the
chain of `err` holds an error marked by `retry.RetryableError`. -/
def asRetryable : GoError → Bool
  | .retryable _ => true
  | .join a b => asRetryable a || asRetryable b
  | _ => false

/-- The call `retry.Fibonacci(ctx, base, f)` of the library
`github.com/sethvargo/go-retry` (outside the repository), which is
`retry.Do(ctx, NewFibonacci(base), f)`. Each round returns `ctx.Err()`
if the context is done, runs `f`, returns `nil` if `f` did, returns the error of
`f` if it is not marked by `retry.RetryableError`, and otherwise waits for the
next Fibonacci delay (the backoff never stops by itself; the wait ends early
with `ctx.Err()` when the context is done) and starts the next round. The closure
`f` acts on the state `σ` it captures. `fuel` bounds the number of rounds; `none`
is a run that needs more rounds than `fuel`. -/
def retry_Fibonacci {σ : Type} (fuel : Nat) (ctx : Context) (base : Duration)
    (f : Context → σ → Option GoError × σ) (st : σ) : Option (Option GoError × σ) :=
  match fuel with
  | 0 => none
  | fuel + 1 =>
    match ctx.Err with
    | some e => some (some (.context e), st)
    | none =>
      match f ctx st with
      | (none, st1) => some (none, st1)
      | (some err, st1) =>
        if asRetryable err = false then some (some err, st1)
        else
          match ctx.Err with
          | some e => some (some (.context e), st1)
          | none => retry_Fibonacci fuel ctx base f st1

/-! ## `storage.go` -/

/-- The result of a method that returns only an `error`. -/
abbrev Outcome (β : Type) := Option GoError × SecretManagerStorage × World β

/-- Go `url.JoinPath(base, elem...)` on a base made of unreserved path
characters with no empty and no dot segment, the form of the resource names of
the service: the elements are appended, each after a `/`. -/
def url_JoinPath (base : String) (elem : List String) : Except GoError String :=
  .ok (elem.foldl (fun acc e => acc ++ "/" ++ e) base)

/-- The slice built by `List`. -/
abbrev Keys := List String

namespace SecretManagerStorage

variable {β : Type}

/-- Go `getParent`. -/
def getParent (s : SecretManagerStorage) : String :=
  "projects/" ++ s.projectID

/-- The `createRequest` that `store` builds before it calls `CreateSecret`
(lines 50 to 64). -/
def createRequest (s : SecretManagerStorage) (name : String) (ttl : Duration) :
    CreateSecretRequest :=
  { Parent := s.getParent
    SecretId := name
    Secret :=
      { Name := ""
        Replication := some Replication.Automatic
        Etag := ""
        Expiration :=
          if ttl ≠ 0 then some (Expiration.Ttl (durationpb_New (1 * time_Minute))) else none } }

/-- Go `store`. -/
def store (c : Client β) (ctx : Context) (s : SecretManagerStorage) (name : String)
    (content : Bytes) (ttl : Duration) (w : World β) : Outcome β :=
  match World.CreateSecret c ctx (s.createRequest name ttl) w with
  | (.error err, w1) => (some (.status err), s, w1)
  | (.ok secret, w1) =>
    match World.AddSecretVersion c ctx { Parent := secret.Name, Data := content } w1 with
    | (.error err, w2) => (some (.status err), s, w2)
    | (.ok version, w2) => (none, { s with etags := s.etags.set name version.Etag }, w2)

/-- The `for` loop of `findKey` over the remaining `Next` results of the
iterator: the values of `secret` and of the returned error when the loop is
left (`none` for the error when the loop breaks). -/
def findKeyLoop (name : String) : List Secret → Option Status → Option Secret × Option GoError
  | [], none => (none, none)
  | [], some err => (none, some (.errorf "unable to lookup key: %+v" [Operand.status err]))
  | secret :: rest, failure =>
    if strings_HasSuffix secret.Name name then (some secret, none)
    else findKeyLoop name rest failure

/-- Go `findKey`: the pair `(secret, err)` it returns, with `nil` as `none`. -/
def findKey (c : Client β) (ctx : Context) (s : SecretManagerStorage) (name : String)
    (w : World β) : (Option Secret × Option GoError) × SecretManagerStorage × World β :=
  match World.ListSecrets c ctx { Parent := s.getParent, Filter := "name:" ++ name } w with
  | (list, w1) =>
    match findKeyLoop name list.items list.failure with
    | (_, some err) => ((none, some err), s, w1)
    | (none, none) => ((none, some ErrKeyNotFound), s, w1)
    | (some secret, none) =>
      ((some secret, none), { s with etags := s.etags.set name secret.Etag }, w1)

/-- Go `readLatest`. -/
def readLatest (c : Client β) (ctx : Context) (secret : Secret) (w : World β) :
    (Option SecretVersion × Option GoError) × World β :=
  match url_JoinPath secret.Name ["versions", "latest"] with
  | .error err => ((none, some err), w)
  | .ok versionPath =>
    match World.GetSecretVersion c ctx { Name := versionPath } w with
    | (.error err, w1) => ((none, some (.status err)), w1)
    | (.ok version, w1) => ((some version, none), w1)

/-- The closure that `Lock` passes to `retry.Fibonacci`, acting on the instance
and the world. -/
def lockAttempt (c : Client β) (name : String) (ctx : Context)
    (st : SecretManagerStorage × World β) : Option GoError × SecretManagerStorage × World β :=
  match store c ctx st.1 name [116, 114, 117, 101] (1 * time_Minute) st.2 with
  | (some err, s1, w1) => (some err, s1, w1)
  | (none, s1, w1) => (none, { s1 with locks := s1.locks.set name true }, w1)

/-- Go `Lock`. -/
def Lock (c : Client β) (fuel : Nat) (ctx : Context) (s : SecretManagerStorage)
    (name : String) (w : World β) : Option (Outcome β) :=
  let name := "lock-" ++ name
  if lookupBool s.locks name then some (some (.errorf "lock already exists" []), s, w)
  else
    match findKey c ctx s name w with
    | ((secret, err), s1, w1) =>
      if err.any (fun e => errors_Is e ErrKeyNotFound == false) then
        some (err, s1, w1)
      else if secret.isSome then some (some (.errorf "lock already exists" []), s1, w1)
      else retry_Fibonacci fuel ctx (1 * time_Second) (lockAttempt c name) (s1, w1)

/-- The closure that `Unlock` passes to `retry.Fibonacci`. -/
def unlockAttempt (c : Client β) (name : String) (ctx : Context)
    (st : SecretManagerStorage × World β) : Option GoError × SecretManagerStorage × World β :=
  match findKey c ctx st.1 name st.2 with
  | ((_, some err), s1, w1) => (some err, s1, w1)
  | ((none, none), s1, w1) =>
    (some (.errorf "unable to locate lock: %+v" [Operand.nilError]), s1, w1)
  | ((some secret, none), s1, w1) =>
    match World.DeleteSecret c ctx { Name := secret.Name, Etag := lookupString s1.etags name } w1 with
    | (some err, w2) => (some (.errorf "unable to clear lock: %+v" [Operand.status err]), s1, w2)
    | (none, w2) => (none, { s1 with locks := s1.locks.delete name }, w2)

/-- Go `Unlock`. -/
def Unlock (c : Client β) (fuel : Nat) (ctx : Context) (s : SecretManagerStorage)
    (name : String) (w : World β) : Option (Outcome β) :=
  let name := "lock-" ++ name
  if !lookupBool s.locks name then
    some (some (.errorf "called Unlock before Lock: '%s' '%+v"
      [Operand.str name, Operand.locks s.locks]), s, w)
  else retry_Fibonacci fuel ctx (1 * time_Second) (unlockAttempt c name) (s, w)

/-- Go `Store`. -/
def Store (c : Client β) (ctx : Context) (s : SecretManagerStorage) (key : String)
    (value : Bytes) (w : World β) : Outcome β :=
  store c ctx s key value 0 w

/-- Go `Load`: the pair `([]byte, error)`, a nil slice being `[]`. -/
def Load (c : Client β) (ctx : Context) (s : SecretManagerStorage) (key : String)
    (w : World β) : (Bytes × Option GoError) × SecretManagerStorage × World β :=
  match findKey c ctx s key w with
  | ((_, some err), s1, w1) => (([], some err), s1, w1)
  | ((none, none), s1, w1) => (([], some (.panic "nil pointer dereference")), s1, w1)
  | ((some secret, none), s1, w1) =>
    match readLatest c ctx secret w1 with
    | ((_, some err), w2) => (([], some err), s1, w2)
    | ((none, none), w2) => (([], some (.panic "nil pointer dereference")), s1, w2)
    | ((some latest, none), w2) =>
      match World.AccessSecretVersion c ctx { Name := latest.Name } w2 with
      | (.error err, w3) => (([], some (.status err)), s1, w3)
      | (.ok version, w3) => ((version.Data, none), s1, w3)

/-- Go `Delete`. -/
def Delete (c : Client β) (ctx : Context) (s : SecretManagerStorage) (key : String)
    (w : World β) : Outcome β :=
  match findKey c ctx s key w with
  | ((_, some err), s1, w1) => (some err, s1, w1)
  | ((none, none), s1, w1) =>
    (some (.errorf "unable to locate key: %+v" [Operand.nilError]), s1, w1)
  | ((some secret, none), s1, w1) =>
    match World.DeleteSecret c ctx { Name := secret.Name, Etag := lookupString s1.etags key } w1 with
    | (some err, w2) => (some (.status err), s1, w2)
    | (none, w2) => (none, s1, w2)

/-- Go `Exists`. -/
def Exists (c : Client β) (ctx : Context) (s : SecretManagerStorage) (key : String)
    (w : World β) : Bool × SecretManagerStorage × World β :=
  match findKey c ctx s key w with
  | ((secret, _), s1, w1) => (secret.isSome, s1, w1)

/-- The `for` loop of `List` over the remaining `Next` results of the iterator,
from the current value of `list`: the pair `(list, err)` that `List` returns. -/
def listLoop (list : Keys) : List Secret → Option Status → Keys × Option GoError
  | [], none => (list, none)
  | [], some err => (list, some (.status err))
  | secret :: rest, failure => listLoop (list ++ [lastPart secret.Name]) rest failure

set_option linter.unusedVariables false in
/-- Go `List`. -/
def List (c : Client β) (ctx : Context) (s : SecretManagerStorage) (pfx : String)
    (recursive : Bool) (w : World β) : (Keys × Option GoError) × SecretManagerStorage × World β :=
  match World.ListSecrets c ctx { Parent := s.getParent, Filter := pfx } w with
  | (it, w1) => (listLoop [] it.items it.failure, s, w1)

end SecretManagerStorage

/-! ## A reference backend -/

/-- Modelled from the spec: a Version held by the remote backend (section 3),
an immutable payload with the version token assigned at creation. -/
structure StoredVersion where
  Etag : String
  Data : Bytes
  deriving DecidableEq, Repr

/-- Modelled from the spec: a Secret held by the remote backend (section 3),
identified by its namespace root and key, with its etag, its optional
expiration and its versions, oldest first. -/
structure StoredSecret where
  Parent : String
  Id : String
  Replication : Option Replication
  Etag : String
  Expiration : Option Expiration
  versions : List StoredVersion
  deriving DecidableEq, Repr

/-- Modelled from the spec: the naming convention of section 6, resource path
`<namespace-root>/secrets/<key>`. -/
def StoredSecret.Name (x : StoredSecret) : String :=
  x.Parent ++ "/secrets/" ++ x.Id

/-- Modelled from the spec: the `Secret` message the backend returns for a
stored secret. -/
def StoredSecret.toSecret (x : StoredSecret) : Secret :=
  { Name := x.Name, Replication := x.Replication, Etag := x.Etag, Expiration := x.Expiration }

/-- Modelled from the spec: the state of the remote backend of section 6, which
lies outside the repository. `secrets` is in enumeration order (creation
order), `next` numbers the tokens handed out, and `faults` holds the fate of
the coming requests: `some status` makes the next request fail with that
status and change nothing. -/
structure Backend where
  secrets : List StoredSecret
  next : Nat
  faults : List (Option Status)
  deriving DecidableEq, Repr

/-- Modelled from the spec: a Key is a flat identifier (section 3); the
characters the service allows in it are letters, digits, `-` and `_`. -/
def isIdChar (c : Char) : Bool :=
  c.isAlphanum || c = '-' || c = '_'

/-- Modelled from the spec: the keys the service accepts in `CreateSecret`, 1 to
255 allowed characters. -/
def validSecretId (id : String) : Bool :=
  decide (0 < id.data.length) && decide (id.data.length ≤ 255) && id.data.all isIdChar

/-- Modelled from the spec: the namespace roots the service accepts,
`projects/` followed by a project identifier made of allowed characters. -/
def validParent (parent : String) : Bool :=
  decide (parent.data.take 9 = "projects/".data) && decide (0 < (parent.data.drop 9).length) &&
    (parent.data.drop 9).all isIdChar

/-- Modelled from the spec: the server-side filter of `ListSecrets`, a substring
match on the resource path (section 4.1); a filter `name:x` asks for `x` in the
name, any other filter text is looked for in the name as it stands. -/
def filterMatches (filter name : String) : Bool :=
  let needle := if filter.data.take 5 = "name:".data then filter.data.drop 5 else filter.data
  decide (needle <:+: name.data)

namespace Backend

/-- Modelled from the spec: the opaque token (etag) the backend hands out with
number `n`. -/
def etag (n : Nat) : String :=
  "etag-" ++ toString n

/-- Modelled from the spec: whether the backend answers the next request; a
done context or a pending fault makes the request fail. -/
def gate (ctx : Context) (b : Backend) : Option Status × Backend :=
  match ctx.Err with
  | some CtxErr.canceled => (some ⟨1, "context canceled"⟩, b)
  | some CtxErr.deadlineExceeded => (some ⟨4, "context deadline exceeded"⟩, b)
  | none =>
    match b.faults with
    | [] => (none, b)
    | fault :: rest => (fault, { b with faults := rest })

/-- Modelled from the spec: `CreateSecret(parentNamespace, keyId,
replicationPolicy, optionalExpiration)` of section 6; a second creation of a
key is a backend-level error. -/
def CreateSecret (ctx : Context) (req : CreateSecretRequest) (b : Backend) :
    Except Status Secret × Backend :=
  match gate ctx b with
  | (some err, b1) => (.error err, b1)
  | (none, b1) =>
    if (validParent req.Parent && validSecretId req.SecretId
        && req.Secret.Replication.isSome) = false then
      (.error ⟨3, "invalid argument"⟩, b1)
    else if b1.secrets.any (fun x => x.Parent = req.Parent ∧ x.Id = req.SecretId) then
      (.error ⟨6, "already exists"⟩, b1)
    else
      let x : StoredSecret :=
        { Parent := req.Parent, Id := req.SecretId, Replication := req.Secret.Replication,
          Etag := etag b1.next, Expiration := req.Secret.Expiration, versions := [] }
      (.ok x.toSecret, { b1 with secrets := b1.secrets ++ [x], next := b1.next + 1 })

/-- Modelled from the spec: the path of version number `n` of a secret. -/
def versionName (x : StoredSecret) (n : Nat) : String :=
  x.Name ++ "/versions/" ++ toString n

/-- Modelled from the spec: `AddSecretVersion(secretPath, payloadBytes)` of the
external interfaces (section 6), which returns the new version with its etag. -/
def AddSecretVersion (ctx : Context) (req : AddSecretVersionRequest) (b : Backend) :
    Except Status SecretVersion × Backend :=
  match gate ctx b with
  | (some err, b1) => (.error err, b1)
  | (none, b1) =>
    match b1.secrets.find? (fun x => x.Name = req.Parent) with
    | none => (.error ⟨5, "not found"⟩, b1)
    | some x =>
      let v : StoredVersion := { Etag := etag b1.next, Data := req.Data }
      (.ok { Name := versionName x (x.versions.length + 1), Etag := v.Etag },
        { b1 with
          secrets := b1.secrets.map
            (fun y => if y.Name = req.Parent then { y with versions := y.versions ++ [v] } else y)
          next := b1.next + 1 })

/-- Modelled from the spec: `ListSecrets(parentNamespace, filterExpr)` of the
external interfaces (section 6), the secrets of the namespace that match the
filter, in enumeration order. -/
def ListSecrets (ctx : Context) (req : ListSecretsRequest) (b : Backend) :
    SecretIterator × Backend :=
  match gate ctx b with
  | (some err, b1) => ({ items := [], failure := some err }, b1)
  | (none, b1) =>
    ({ items := (b1.secrets.filter
          (fun x => x.Parent = req.Parent && filterMatches req.Filter x.Name)).map
          StoredSecret.toSecret
       failure := none }, b1)

/-- Modelled from the spec: the pieces `(parent, id, version)` of a version path
`projects/<project>/secrets/<id>/versions/<version>`. -/
def parseVersionPath (path : String) : Option (String × String × String) :=
  match splitSlash path.data with
  | [p, project, s, id, v, version] =>
    if p = "projects".data ∧ s = "secrets".data ∧ v = "versions".data then
      some (String.mk (p ++ '/' :: project), String.mk id, String.mk version)
    else none
  | _ => none

/-- Modelled from the spec: the version a version path names in the backend,
with its number; the alias `latest` is the most recent version. -/
def resolveVersion (path : String) (b : Backend) : Option (StoredSecret × Nat × StoredVersion) :=
  match parseVersionPath path with
  | none => none
  | some (parent, id, version) =>
    match b.secrets.find? (fun x => x.Parent = parent ∧ x.Id = id) with
    | none => none
    | some x =>
      if version = "latest" then
        x.versions.getLast?.map (fun v => (x, x.versions.length, v))
      else
        (x.versions.enum.find? (fun iv => toString (iv.1 + 1) = version)).map
          (fun iv => (x, iv.1 + 1, iv.2))

/-- Modelled from the spec: `GetSecretVersion(versionPath)` of section 6, which
supports an alias meaning the most recent version. -/
def GetSecretVersion (ctx : Context) (req : GetSecretVersionRequest) (b : Backend) :
    Except Status SecretVersion × Backend :=
  match gate ctx b with
  | (some err, b1) => (.error err, b1)
  | (none, b1) =>
    match resolveVersion req.Name b1 with
    | none => (.error ⟨5, "not found"⟩, b1)
    | some (x, n, v) => (.ok { Name := versionName x n, Etag := v.Etag }, b1)

/-- Modelled from the spec: `AccessSecretVersion(versionPath)` of section 6,
the payload bytes of the version. -/
def AccessSecretVersion (ctx : Context) (req : AccessSecretVersionRequest) (b : Backend) :
    Except Status AccessSecretVersionResponse × Backend :=
  match gate ctx b with
  | (some err, b1) => (.error err, b1)
  | (none, b1) =>
    match resolveVersion req.Name b1 with
    | none => (.error ⟨5, "not found"⟩, b1)
    | some (x, n, v) => (.ok { Name := versionName x n, Data := v.Data }, b1)

/-- Modelled from the spec: `DeleteSecret(secretPath, etagPrecondition)` of the
external interfaces (section 6): `Ok`, or `PreconditionFailed` when a
precondition is given and is not the current etag of the secret. -/
def DeleteSecret (ctx : Context) (req : DeleteSecretRequest) (b : Backend) :
    Option Status × Backend :=
  match gate ctx b with
  | (some err, b1) => (some err, b1)
  | (none, b1) =>
    match b1.secrets.find? (fun x => x.Name = req.Name) with
    | none => (some ⟨5, "not found"⟩, b1)
    | some x =>
      if req.Etag ≠ "" ∧ req.Etag ≠ x.Etag then (some ⟨9, "etag mismatch"⟩, b1)
      else (none, { b1 with secrets := b1.secrets.filter (fun y => y.Name ≠ req.Name) })

/-- Modelled from the spec: the Remote Backend Client of section 6 over the
reference backend. -/
def client : Client Backend where
  CreateSecret := CreateSecret
  AddSecretVersion := AddSecretVersion
  ListSecrets := ListSecrets
  GetSecretVersion := GetSecretVersion
  AccessSecretVersion := AccessSecretVersion
  DeleteSecret := DeleteSecret

end Backend

/-- The leaf of a resource path in the spec's words: the part after its last `/`. -/
def leaf (p : String) : String :=
  String.mk (p.data.reverse.takeWhile (fun c => c ≠ '/')).reverse

/-! ## `caddy.go` -/

/-- Go `var ErrInvalidJSON = errors.New("invalid JSON")`. -/
def ErrInvalidJSON : GoError := .errorString "invalid JSON"

/-- Go `var ErrCredentialsFile = errors.New("unable to read credentials file")`. -/
def ErrCredentialsFile : GoError := .errorString "unable to read credentials file"

/-- Go `io.EOF`. -/
def io_EOF : GoError := .errorString "EOF"

/-- An open `fs.File`: the bytes not read yet, and the error its `Read` reports
when the file cannot be read (a directory, an input error). -/
structure OpenFile where
  content : Bytes
  failure : Option GoError

/-- Go `file.Read(buffer)` for a buffer of length `n`, as `testing/fstest` files
do it: the bytes copied into the buffer, at most `n` of them, and the error. At
the end of the content it reports `io.EOF`. (`os` files do the same on a file
that is not empty.) -/
def OpenFile.Read (file : OpenFile) (n : Nat) : Bytes × Option GoError :=
  match file.failure with
  | some err => ([], some err)
  | none => if file.content = [] then ([], some io_EOF) else (file.content.take n, none)

/-- A Go `fs.FS`, observed through `Open`. -/
abbrev FS := String → Except GoError OpenFile

/-- What `Validate` takes from outside the package: the file system
`os.DirFS("/")`, the function `json.Valid`, and the error of
`NewSecretManagerStorage` when the client cannot be set up. -/
structure Env where
  osDirFS : FS
  json_Valid : Bytes → Bool
  newClientError : Option GoError

/-- The exported fields of `CaddyGcpSecretManagerStorage` that `Validate` reads;
a nil `Fs` is `none`. -/
structure CaddyGcpSecretManagerStorage where
  Fs : Option FS
  ProjectID : String
  CredentialsFile : String

/-- The statements of `Validate` from the call of `NewSecretManagerStorage` on
(lines 109 to 117). `NewSecretManagerStorage` wraps the error of the client
setup with `fmt.Errorf("unable to setup GCP Client: %w", err)`, kept here as the
message joined with the wrapped error. -/
def validateClient (env : Env) : Option GoError :=
  env.newClientError.map fun err => GoError.join (.errorString "unable to setup GCP Client") err

/-- The local variable `files` of `Validate`: `c.Fs`, or `os.DirFS("/")` when
`c.Fs` is nil. -/
def CaddyGcpSecretManagerStorage.files (env : Env) (c : CaddyGcpSecretManagerStorage) : FS :=
  match c.Fs with
  | some f => f
  | none => env.osDirFS

/-- Go `Validate`. The buffer handed to `file.Read` is the nil slice declared by
`var buffer []byte`, of length 0; after the call it holds the bytes copied into
it, and that is what `json.Valid` is given. -/
def CaddyGcpSecretManagerStorage.Validate (env : Env) (c : CaddyGcpSecretManagerStorage) :
    Option GoError :=
  if c.CredentialsFile ≠ "" then
    match c.files env c.CredentialsFile with
    | .error err => some (.join ErrCredentialsFile err)
    | .ok file =>
      let buffer : Bytes := []
      match file.Read buffer.length with
      | (_, some err) => some (.join ErrCredentialsFile err)
      | (copied, none) =>
        let buffer := copied ++ buffer.drop copied.length
        if !env.json_Valid buffer then some (.join ErrInvalidJSON ErrCredentialsFile)
        else validateClient env
  else validateClient env

/-! ## Sample values -/

/-- A fresh instance for the project `my-project`. -/
def sampleStorage : SecretManagerStorage := NewSecretManagerStorage "my-project"

/-- A stored secret `other` with one version, unrelated to the keys used below. -/
def sampleOther : StoredSecret :=
  ⟨"projects/my-project", "other", some .Automatic, "etag-0", none, [⟨"etag-1", [9]⟩]⟩

/-- A stored secret `backup-key` with one version; its path ends in `key`. -/
def sampleBackup : StoredSecret :=
  ⟨"projects/my-project", "backup-key", some .Automatic, "etag-0", none, [⟨"etag-1", [9]⟩]⟩

/-- The secret a `Store("key", [1, 2])` adds to a backend that has handed out two tokens. -/
def sampleKey : StoredSecret :=
  ⟨"projects/my-project", "key", some .Automatic, "etag-2", none, [⟨"etag-3", [1, 2]⟩]⟩

/-- The requests of a `Store("key", [1, 2])`. -/
def sampleStoreCalls : List Call :=
  [Call.CreateSecret ⟨"projects/my-project", "key", ⟨"", some .Automatic, "", none⟩⟩,
   Call.AddSecretVersion ⟨"projects/my-project/secrets/key", [1, 2]⟩]

/-- The secret a `Lock("cert")` adds to an empty backend. -/
def sampleLock : StoredSecret :=
  ⟨"projects/my-project", "lock-cert", some .Automatic, "etag-0", some (.Ttl ⟨60, 0⟩),
    [⟨"etag-1", [116, 114, 117, 101]⟩]⟩

/-- The instance after its `Lock("cert")` on an empty backend: it holds the lock. -/
def sampleHolder : SecretManagerStorage :=
  ⟨"my-project", [("lock-cert", "etag-1")], [("lock-cert", true)]⟩

/-- The secret a `Lock("cert")` adds to a backend that has handed out two tokens. -/
def sampleRelock : StoredSecret :=
  ⟨"projects/my-project", "lock-cert", some .Automatic, "etag-2", some (.Ttl ⟨60, 0⟩),
    [⟨"etag-3", [116, 114, 117, 101]⟩]⟩

/-- The requests of a successful `Lock("cert")`. -/
def sampleLockCalls : List Call :=
  [Call.ListSecrets ⟨"projects/my-project", "name:lock-cert"⟩,
   Call.CreateSecret ⟨"projects/my-project", "lock-cert",
     ⟨"", some .Automatic, "", some (.Ttl ⟨60, 0⟩)⟩⟩,
   Call.AddSecretVersion ⟨"projects/my-project/secrets/lock-cert", [116, 114, 117, 101]⟩]

/-! # Theorems -/

open SecretManagerStorage

/-! ## Resource paths and leaves -/

theorem splitSlash_ne_nil (l : List Char) : splitSlash l ≠ [] := by
  cases l with
  | nil => simp [splitSlash]
  | cons c cs =>
    simp only [splitSlash]
    split
    · simp
    · split <;> simp

theorem splitSlash_of_not_mem (l : List Char) (h : '/' ∉ l) : splitSlash l = [l] := by
  induction l with
  | nil => rfl
  | cons c cs ih =>
    have hc : c ≠ '/' := fun e => h (by simp [e])
    have hcs : '/' ∉ cs := fun e => h (by simp [e])
    simp [splitSlash, hc, ih hcs]

theorem splitSlash_append_slash (a r : List Char) (h : '/' ∉ a) :
    splitSlash (a ++ '/' :: r) = a :: splitSlash r := by
  induction a with
  | nil => simp [splitSlash]
  | cons c cs ih =>
    have hc : c ≠ '/' := fun e => h (by simp [e])
    have hcs : '/' ∉ cs := fun e => h (by simp [e])
    simp [splitSlash, hc, ih hcs]

theorem length_splitSlash_cons (c : Char) (cs : List Char) (h : c ≠ '/') :
    (splitSlash (c :: cs)).length = (splitSlash cs).length := by
  simp only [splitSlash, if_neg h]
  cases hs : splitSlash cs with
  | nil => exact absurd hs (splitSlash_ne_nil _)
  | cons p ps => simp

theorem two_le_length_splitSlash (a r : List Char) :
    2 ≤ (splitSlash (a ++ '/' :: r)).length := by
  induction a with
  | nil =>
    have := List.length_pos.mpr (splitSlash_ne_nil r)
    simp [splitSlash]; omega
  | cons c cs ih =>
    by_cases hc : c = '/'
    · have := List.length_pos.mpr (splitSlash_ne_nil (cs ++ '/' :: r))
      simp [splitSlash, hc]; omega
    · rw [List.cons_append, length_splitSlash_cons c _ hc]; exact ih

theorem getLastD_splitSlash_append (a r : List Char) (h : '/' ∉ r) :
    (splitSlash (a ++ '/' :: r)).getLastD [] = r := by
  induction a with
  | nil => simp [splitSlash, splitSlash_of_not_mem r h]
  | cons c cs ih =>
    simp only [List.cons_append, splitSlash]
    split
    · have := splitSlash_ne_nil (cs ++ '/' :: r)
      cases hs : splitSlash (cs ++ '/' :: r) with
      | nil => exact absurd hs this
      | cons p ps => rw [hs] at ih; simpa using ih
    · cases hs : splitSlash (cs ++ '/' :: r) with
      | nil => exact absurd hs (splitSlash_ne_nil _)
      | cons p ps =>
        rw [hs] at ih
        cases ps with
        | nil =>
          have := two_le_length_splitSlash cs r
          rw [hs] at this; simp at this
        | cons q qs => simpa using ih

theorem slash_decompose (l : List Char) :
    '/' ∉ l ∨ ∃ a r, l = a ++ '/' :: r ∧ '/' ∉ r := by
  induction l with
  | nil => left; simp
  | cons c cs ih =>
    rcases ih with h | ⟨a, r, h, hr⟩
    · by_cases hc : c = '/'
      · right; exact ⟨[], cs, by simp [hc], h⟩
      · left; simp [h, Ne.symm hc]
    · right; exact ⟨c :: a, r, by simp [h], hr⟩

theorem lastPart_eq_leaf (p : String) : lastPart p = leaf p := by
  unfold lastPart leaf
  congr 1
  rcases slash_decompose p.data with h | ⟨a, r, h, hr⟩
  · rw [splitSlash_of_not_mem _ h]
    have : p.data.reverse.takeWhile (fun c => c ≠ '/') = p.data.reverse := by
      rw [List.takeWhile_eq_self_iff]
      intro c hc
      have hm : c ∈ p.data := List.mem_reverse.mp hc
      have : c ≠ '/' := fun e => h (e ▸ hm)
      simpa using this
    rw [this, List.reverse_reverse]
    rfl
  · rw [h, getLastD_splitSlash_append a r hr]
    have : (a ++ '/' :: r).reverse = r.reverse ++ '/' :: a.reverse := by simp
    rw [this, List.takeWhile_append_of_pos]
    · simp
    · intro c hc
      have hm : c ∈ r := List.mem_reverse.mp hc
      have : c ≠ '/' := fun e => hr (e ▸ hm)
      simpa using this

theorem lastPart_secret_path (parent id : String) (h : '/' ∉ id.data) :
    lastPart (parent ++ "/secrets/" ++ id) = id := by
  unfold lastPart
  have : (parent ++ "/secrets/" ++ id).data = (parent.data ++ "/secrets".data) ++ '/' :: id.data := by
    simp [String.data_append]
  rw [this, getLastD_splitSlash_append _ _ h]

/-! ## Go maps -/

theorem GoMap.get?_delete_self {V : Type} (m : GoMap V) (k : String) :
    (GoMap.delete m k).get? k = none := by
  induction m with
  | nil => rfl
  | cons kv rest ih =>
    obtain ⟨k', v⟩ := kv
    by_cases h : k' = k
    · simp [GoMap.delete, h, ih]
    · simp [GoMap.delete, GoMap.get?, h, ih]

theorem GoMap.get?_set_self {V : Type} (m : GoMap V) (k : String) (v : V) :
    (GoMap.set m k v).get? k = some v := by
  simp [GoMap.set, GoMap.get?]

theorem lookupBool_set_self (m : GoMap Bool) (k : String) :
    lookupBool (GoMap.set m k true) k = true := by
  simp [lookupBool, GoMap.get?_set_self]

theorem lookupBool_delete_self (m : GoMap Bool) (k : String) :
    lookupBool (GoMap.delete m k) k = false := by
  simp [lookupBool, GoMap.get?_delete_self]

theorem lookupString_set_self (m : GoMap String) (k v : String) :
    lookupString (GoMap.set m k v) k = v := by
  simp [lookupString, GoMap.get?_set_self]

/-! ## The loops over the iterator -/

theorem findKeyLoop_of_none (name : String) (items : List Secret) (failure : Option Status)
    (h : ∀ x ∈ items, strings_HasSuffix x.Name name = false) :
    findKeyLoop name items failure =
      (none, failure.map fun err => .errorf "unable to lookup key: %+v" [Operand.status err]) := by
  induction items with
  | nil => cases failure <;> rfl
  | cons x rest ih =>
    have hx : strings_HasSuffix x.Name name = false := h x (by simp)
    have hrest : ∀ y ∈ rest, strings_HasSuffix y.Name name = false :=
      fun y hy => h y (by simp [hy])
    simp [findKeyLoop, hx, ih hrest]

theorem findKeyLoop_of_some (name : String) (items : List Secret) (failure : Option Status)
    (h : ∃ x ∈ items, strings_HasSuffix x.Name name = true) :
    ∃ secret, findKeyLoop name items failure = (some secret, none) ∧ secret ∈ items ∧
      strings_HasSuffix secret.Name name = true := by
  induction items with
  | nil => simp at h
  | cons x rest ih =>
    by_cases hx : strings_HasSuffix x.Name name = true
    · exact ⟨x, by simp [findKeyLoop, hx], by simp, hx⟩
    · obtain ⟨y, hy, hys⟩ := h
      have hy' : y ∈ rest := by
        rcases List.mem_cons.mp hy with e | e
        · exact absurd (e ▸ hys) hx
        · exact e
      obtain ⟨secret, h1, h2, h3⟩ := ih ⟨y, hy', hys⟩
      exact ⟨secret, by simp [findKeyLoop, hx, h1], by simp [h2], h3⟩

/-- On a listing that holds first secrets without the suffix and then one with
it, the loop of `findKey` stops at that one. -/
theorem findKeyLoop_append (name : String) (pre post : List Secret) (x : Secret)
    (failure : Option Status)
    (hpre : ∀ y ∈ pre, strings_HasSuffix y.Name name = false)
    (hx : strings_HasSuffix x.Name name = true) :
    findKeyLoop name (pre ++ x :: post) failure = (some x, none) := by
  induction pre with
  | nil => simp [findKeyLoop, hx]
  | cons y rest ih =>
    have hy : strings_HasSuffix y.Name name = false := hpre y (by simp)
    have hrest : ∀ z ∈ rest, strings_HasSuffix z.Name name = false :=
      fun z hz => hpre z (by simp [hz])
    simp [findKeyLoop, hy, ih hrest]

theorem findKeyLoop_error (name : String) (items : List Secret) (failure : Option Status)
    (err : GoError) (h : (findKeyLoop name items failure).2 = some err) :
    asRetryable err = false := by
  induction items with
  | nil =>
    cases failure with
    | none => simp [findKeyLoop] at h
    | some e => simp [findKeyLoop] at h; subst h; rfl
  | cons x rest ih =>
    by_cases hx : strings_HasSuffix x.Name name = true
    · simp [findKeyLoop, hx] at h
    · simp [findKeyLoop, hx] at h; exact ih h

theorem listLoop_done (list : Keys) (items : List Secret) :
    listLoop list items none = (list ++ items.map (fun x => lastPart x.Name), none) := by
  induction items generalizing list with
  | nil => simp [listLoop]
  | cons x rest ih => simp [listLoop, ih]

/-! ## The calls made by the methods -/

section Generic

variable {β : Type}

theorem findKey_calls (c : Client β) (ctx : Context) (s : SecretManagerStorage) (name : String)
    (w : World β) :
    (s.findKey c ctx name w).2.2.calls =
      w.calls ++ [Call.ListSecrets { Parent := s.getParent, Filter := "name:" ++ name }] := by
  unfold findKey World.ListSecrets
  simp only
  split <;> rfl

theorem findKey_locks (c : Client β) (ctx : Context) (s : SecretManagerStorage) (name : String)
    (w : World β) : (s.findKey c ctx name w).2.1.locks = s.locks := by
  unfold findKey
  simp only
  split <;> rfl

theorem findKey_result (c : Client β) (ctx : Context) (s : SecretManagerStorage) (name : String)
    (w : World β) :
    (s.findKey c ctx name w).1 =
      match findKeyLoop name (c.ListSecrets ctx ⟨s.getParent, "name:" ++ name⟩ w.backend).1.items
          (c.ListSecrets ctx ⟨s.getParent, "name:" ++ name⟩ w.backend).1.failure with
      | (_, some err) => (none, some err)
      | (none, none) => (none, some ErrKeyNotFound)
      | (some secret, none) => (some secret, none) := by
  unfold findKey World.ListSecrets
  simp only
  split <;> simp_all

theorem findKey_error_not_retryable (c : Client β) (ctx : Context) (s : SecretManagerStorage)
    (name : String) (w : World β) (err : GoError)
    (h : (s.findKey c ctx name w).1.2 = some err) : asRetryable err = false := by
  rw [findKey_result] at h
  split at h
  · next e he =>
    simp only [Option.some.injEq] at h
    subst h
    exact findKeyLoop_error name _ _ _ (by rw [he])
  · cases h; rfl
  · cases h

theorem store_error_not_retryable (c : Client β) (ctx : Context) (s : SecretManagerStorage)
    (name : String) (content : Bytes) (ttl : Duration) (w : World β) (err : GoError)
    (h : (s.store c ctx name content ttl w).1 = some err) : asRetryable err = false := by
  unfold store at h
  split at h
  · cases h; rfl
  · split at h
    · cases h; rfl
    · cases h

theorem lockAttempt_not_retryable (c : Client β) (name : String) (ctx : Context)
    (st : SecretManagerStorage × World β) (err : GoError)
    (h : (lockAttempt c name ctx st).1 = some err) : asRetryable err = false := by
  unfold lockAttempt at h
  split at h
  · next e s1 w1 hs =>
    cases h
    exact store_error_not_retryable c ctx st.1 name _ _ st.2 _ (by rw [hs])
  · cases h

theorem unlockAttempt_not_retryable (c : Client β) (name : String) (ctx : Context)
    (st : SecretManagerStorage × World β) (err : GoError)
    (h : (unlockAttempt c name ctx st).1 = some err) : asRetryable err = false := by
  unfold unlockAttempt at h
  split at h
  · next e s1 w1 hs =>
    cases h
    exact findKey_error_not_retryable c ctx st.1 name st.2 _ (by rw [hs])
  · cases h; rfl
  · split at h
    · cases h; rfl
    · cases h

/-- A closure whose errors are never marked retryable is run once. -/
theorem retry_Fibonacci_once {σ : Type} (fuel : Nat) (ctx : Context) (base : Duration)
    (f : Context → σ → Option GoError × σ) (st : σ) (hctx : ctx.Err = none)
    (hf : ∀ err, (f ctx st).1 = some err → asRetryable err = false) :
    retry_Fibonacci (fuel + 1) ctx base f st = some (f ctx st) := by
  unfold retry_Fibonacci
  simp only [hctx]
  split
  · next st1 h => rw [h]
  · next err st1 h =>
    have := hf err (by rw [h])
    simp [this, h]

theorem retry_Fibonacci_done {σ : Type} (fuel : Nat) (ctx : Context) (base : Duration)
    (f : Context → σ → Option GoError × σ) (st : σ) (e : CtxErr) (hctx : ctx.Err = some e) :
    retry_Fibonacci (fuel + 1) ctx base f st = some (some (.context e), st) := by
  unfold retry_Fibonacci
  simp only [hctx]

theorem store_calls (c : Client β) (ctx : Context) (s : SecretManagerStorage)
    (name : String) (content : Bytes) (ttl : Duration) (w : World β) :
    ∃ rest, (s.store c ctx name content ttl w).2.2.calls =
        w.calls ++ Call.CreateSecret (s.createRequest name ttl) :: rest ∧
      ∀ r, Call.CreateSecret r ∉ rest := by
  unfold store World.CreateSecret World.AddSecretVersion
  simp only
  split
  · next err w1 h =>
    simp only [Prod.mk.injEq] at h
    exact ⟨[], by simp [← h.2], by simp⟩
  · next secret w1 h =>
    simp only [Prod.mk.injEq] at h
    split
    · next err w2 h2 =>
      simp only [Prod.mk.injEq] at h2
      exact ⟨[Call.AddSecretVersion ⟨secret.Name, content⟩], by simp [← h2.2, ← h.2], by simp⟩
    · next v w2 h2 =>
      simp only [Prod.mk.injEq] at h2
      exact ⟨[Call.AddSecretVersion ⟨secret.Name, content⟩], by simp [← h2.2, ← h.2], by simp⟩

end Generic

section Generic

variable {β : Type}

/-- `Lock` returns after at most one round of its retry loop. -/
theorem Lock_eq (c : Client β) (fuel : Nat) (ctx : Context) (s : SecretManagerStorage)
    (name : String) (w : World β) :
    s.Lock c (fuel + 1) ctx name w = some (
      if lookupBool s.locks ("lock-" ++ name) then (some (.errorf "lock already exists" []), s, w)
      else
        let r := s.findKey c ctx ("lock-" ++ name) w
        if r.1.2.any (fun e => errors_Is e ErrKeyNotFound == false) then (r.1.2, r.2.1, r.2.2)
        else if r.1.1.isSome then (some (.errorf "lock already exists" []), r.2.1, r.2.2)
        else
          match ctx.Err with
          | some e => (some (.context e), r.2.1, r.2.2)
          | none => lockAttempt c ("lock-" ++ name) ctx (r.2.1, r.2.2)) := by
  unfold Lock
  simp only
  split
  · rfl
  · split
    · rfl
    · split
      · rfl
      · cases hctx : ctx.Err with
        | some e => rw [retry_Fibonacci_done _ _ _ _ _ e hctx]
        | none =>
          rw [retry_Fibonacci_once _ _ _ _ _ hctx
            (fun err h => lockAttempt_not_retryable c _ ctx _ err h)]

/-- `Unlock` returns after at most one round of its retry loop. -/
theorem Unlock_eq (c : Client β) (fuel : Nat) (ctx : Context) (s : SecretManagerStorage)
    (name : String) (w : World β) :
    s.Unlock c (fuel + 1) ctx name w = some (
      if !lookupBool s.locks ("lock-" ++ name) then
        (some (.errorf "called Unlock before Lock: '%s' '%+v"
          [Operand.str ("lock-" ++ name), Operand.locks s.locks]), s, w)
      else
        match ctx.Err with
        | some e => (some (.context e), s, w)
        | none => unlockAttempt c ("lock-" ++ name) ctx (s, w)) := by
  unfold Unlock
  simp only
  split
  · rfl
  · cases hctx : ctx.Err with
    | some e => rw [retry_Fibonacci_done _ _ _ _ _ e hctx]
    | none =>
      rw [retry_Fibonacci_once _ _ _ _ _ hctx
        (fun err h => unlockAttempt_not_retryable c _ ctx _ err h)]

theorem lockAttempt_calls (c : Client β) (name : String) (ctx : Context)
    (st : SecretManagerStorage × World β) :
    ∃ rest, (lockAttempt c name ctx st).2.2.calls =
        st.2.calls ++ Call.CreateSecret (st.1.createRequest name (1 * time_Minute)) :: rest ∧
      ∀ r, Call.CreateSecret r ∉ rest := by
  obtain ⟨rest, h1, h2⟩ := store_calls c ctx st.1 name [116, 114, 117, 101] (1 * time_Minute) st.2
  refine ⟨rest, ?_, h2⟩
  unfold lockAttempt
  split
  · next e s1 w1 hs => rw [hs] at h1; exact h1
  · next s1 w1 hs => rw [hs] at h1; exact h1

theorem findKey_projectID (c : Client β) (ctx : Context) (s : SecretManagerStorage)
    (name : String) (w : World β) : (s.findKey c ctx name w).2.1.projectID = s.projectID := by
  unfold findKey
  simp only
  split <;> rfl

/-- `Unlock` stops at its local gate when the Lock Table holds no entry for the lock. -/
theorem Unlock_not_held (c : Client β) (fuel : Nat) (ctx : Context)
    (s : SecretManagerStorage) (n : String) (w : World β)
    (h : lookupBool s.locks ("lock-" ++ n) = false) :
    s.Unlock c fuel ctx n w =
      some (some (.errorf "called Unlock before Lock: '%s' '%+v"
        [Operand.str ("lock-" ++ n), Operand.locks s.locks]), s, w) := by
  unfold Unlock
  simp [h]

/-- C4: on an instance whose Lock Table has no held entry for `lock-n`, `Unlock(n)`
returns the called-Unlock-before-Lock error whatever the client, the context,
the backend state and the number of retry rounds allowed are; the instance (Lock
Table and Version Cache) is returned unchanged, and so is the world: the backend
state is untouched and no request is added to the trace. -/
theorem Unlock_without_lock_fails (c : Client β) (fuel : Nat) (ctx : Context)
    (s : SecretManagerStorage) (n : String) (w : World β)
    (h : lookupBool s.locks ("lock-" ++ n) = false) :
    s.Unlock c fuel ctx n w =
      some (some (.errorf "called Unlock before Lock: '%s' '%+v"
        [Operand.str ("lock-" ++ n), Operand.locks s.locks]), s, w) :=
  Unlock_not_held c fuel ctx s n w h

/-- C7: `Exists(key)` is true exactly when `findKey` returns a secret, which is
exactly when the listing yields, before it ends or fails, a secret whose path
has `key` as suffix. When `findKey` ends in `ErrKeyNotFound` (the listing ends
without a match) or in a lookup error (the listing fails before a match),
`Exists` is false; its result is a boolean, no error leaves it. -/
theorem Exists_true_iff_resolved (c : Client β) (ctx : Context) (s : SecretManagerStorage)
    (key : String) (w : World β) :
    ((s.Exists c ctx key w).1 = true ↔ ∃ secret, (s.findKey c ctx key w).1 = (some secret, none)) ∧
    ((s.Exists c ctx key w).1 = true ↔
      ∃ x ∈ (c.ListSecrets ctx ⟨s.getParent, "name:" ++ key⟩ w.backend).1.items,
        strings_HasSuffix x.Name key = true) ∧
    ((s.findKey c ctx key w).1 = (none, some ErrKeyNotFound) ↔
      (∀ x ∈ (c.ListSecrets ctx ⟨s.getParent, "name:" ++ key⟩ w.backend).1.items,
        strings_HasSuffix x.Name key = false) ∧
      (c.ListSecrets ctx ⟨s.getParent, "name:" ++ key⟩ w.backend).1.failure = none) ∧
    (∀ err, (s.findKey c ctx key w).1.2 = some err → (s.Exists c ctx key w).1 = false) := by
  have hE : (s.Exists c ctx key w).1 = (s.findKey c ctx key w).1.1.isSome := by
    unfold SecretManagerStorage.Exists
    rfl
  rw [hE, findKey_result]
  generalize (c.ListSecrets ctx ⟨s.getParent, "name:" ++ key⟩ w.backend).1 = it
  by_cases hm : ∃ x ∈ it.items, strings_HasSuffix x.Name key = true
  · obtain ⟨secret, h1, h2, h3⟩ := findKeyLoop_of_some key it.items it.failure hm
    rw [h1]
    refine ⟨by simp, by simpa using hm, ?_, by simp⟩
    obtain ⟨x, hx, hxs⟩ := hm
    simp only [Prod.mk.injEq, reduceCtorEq, false_and, false_iff, not_and]
    intro hall
    have := hall x hx
    rw [hxs] at this
    cases this
  · have hall : ∀ x ∈ it.items, strings_HasSuffix x.Name key = false := by
      intro x hx
      by_contra hne
      exact hm ⟨x, hx, by simpa using hne⟩
    rw [findKeyLoop_of_none key it.items it.failure hall]
    cases hf : it.failure with
    | none => simp [hm]; exact hall
    | some e => simp [hm, ErrKeyNotFound]

end Generic

/-- C4, at a concrete input: a freshly constructed instance, over the reference
backend holding one secret. -/
theorem Unlock_without_lock_fails_witness :
    lookupBool (NewSecretManagerStorage "my-project").locks ("lock-" ++ "cert") = false ∧
    (NewSecretManagerStorage "my-project").Unlock Backend.client 3 Context.Background "cert"
        ⟨⟨[⟨"projects/my-project", "lock-cert", some .Automatic, "etag-0", none, []⟩], 1, []⟩, []⟩ =
      some (some (.errorf "called Unlock before Lock: '%s' '%+v"
        [Operand.str "lock-cert", Operand.locks []]), NewSecretManagerStorage "my-project",
        ⟨⟨[⟨"projects/my-project", "lock-cert", some .Automatic, "etag-0", none, []⟩], 1, []⟩, []⟩) :=
  ⟨by decide, Unlock_without_lock_fails _ _ _ _ _ _ (by decide)⟩

theorem Lock_calls {β : Type} (c : Client β) (fuel : Nat) (ctx : Context)
    (s : SecretManagerStorage) (n : String) (w : World β) :
    ∃ out extra, s.Lock c (fuel + 1) ctx n w = some out ∧ out.2.2.calls = w.calls ++ extra ∧
      ∀ r, Call.CreateSecret r ∈ extra →
        r = (s.findKey c ctx ("lock-" ++ n) w).2.1.createRequest ("lock-" ++ n) (1 * time_Minute) := by
  rw [Lock_eq]
  by_cases hl : lookupBool s.locks ("lock-" ++ n) = true
  · exact ⟨_, [], by rw [if_pos hl], by simp, by simp⟩
  · rw [if_neg hl]
    have hcalls := findKey_calls c ctx s ("lock-" ++ n) w
    simp only
    by_cases ha : (s.findKey c ctx ("lock-" ++ n) w).1.2.any
        (fun e => errors_Is e ErrKeyNotFound == false) = true
    · exact ⟨_, _, by rw [if_pos ha], hcalls, by simp⟩
    · rw [if_neg ha]
      by_cases hs : (s.findKey c ctx ("lock-" ++ n) w).1.1.isSome = true
      · exact ⟨_, _, by rw [if_pos hs], hcalls, by simp⟩
      · rw [if_neg hs]
        cases hctx : ctx.Err with
        | some e => exact ⟨_, _, rfl, hcalls, by simp⟩
        | none =>
          obtain ⟨rest, h1, h2⟩ := lockAttempt_calls c ("lock-" ++ n) ctx
            ((s.findKey c ctx ("lock-" ++ n) w).2.1, (s.findKey c ctx ("lock-" ++ n) w).2.2)
          refine ⟨_, Call.ListSecrets ⟨s.getParent, "name:" ++ ("lock-" ++ n)⟩ ::
              Call.CreateSecret ((s.findKey c ctx ("lock-" ++ n) w).2.1.createRequest
                ("lock-" ++ n) (1 * time_Minute)) :: rest, rfl, ?_, ?_⟩
          · simp only at h1 ⊢
            rw [h1, hcalls]
            simp
          · intro r hr
            simp only [List.mem_cons, reduceCtorEq, Call.CreateSecret.injEq, false_or] at hr
            rcases hr with hr | hr
            · exact hr
            · exact absurd hr (h2 r)

/-- C8: the `CreateSecret` request built by `store` carries an expiration if and
only if `ttl != 0`, and then it is the one-minute duration whatever `ttl` is;
`store` sends that request and no other `CreateSecret` request; so `Store` sends
one `CreateSecret` request, without expiration, and every `CreateSecret` request
sent by `Lock` (which returns once it is allowed a retry round) carries the
one-minute expiration. -/
theorem createRequest_expiration :
    (∀ (s : SecretManagerStorage) (name : String) (ttl : Duration),
      ((s.createRequest name ttl).Secret.Expiration.isSome = true ↔ ttl ≠ 0) ∧
      (ttl ≠ 0 → (s.createRequest name ttl).Secret.Expiration = some (.Ttl ⟨60, 0⟩))) ∧
    (∀ (β : Type) (c : Client β) (ctx : Context) (s : SecretManagerStorage) (name : String)
        (content : Bytes) (ttl : Duration) (w : World β),
      ∃ rest, (s.store c ctx name content ttl w).2.2.calls =
          w.calls ++ Call.CreateSecret (s.createRequest name ttl) :: rest ∧
        ∀ r, Call.CreateSecret r ∉ rest) ∧
    (∀ (β : Type) (c : Client β) (ctx : Context) (s : SecretManagerStorage) (key : String)
        (value : Bytes) (w : World β),
      ∃ req rest, (s.Store c ctx key value w).2.2.calls = w.calls ++ Call.CreateSecret req :: rest ∧
        req.Secret.Expiration = none ∧ ∀ r, Call.CreateSecret r ∉ rest) ∧
    (∀ (β : Type) (c : Client β) (fuel : Nat) (ctx : Context) (s : SecretManagerStorage)
        (n : String) (w : World β),
      ∃ out extra, s.Lock c (fuel + 1) ctx n w = some out ∧ out.2.2.calls = w.calls ++ extra ∧
        ∀ r, Call.CreateSecret r ∈ extra → r.Secret.Expiration = some (.Ttl ⟨60, 0⟩)) := by
  refine ⟨?_, ?_, ?_, ?_⟩
  · intro s name ttl
    by_cases h : ttl = 0
    · simp [createRequest, h]
    · simp only [createRequest, h, ne_eq, not_false_eq_true, ite_true, Option.isSome_some,
        true_iff, forall_true_left, true_and]
      rfl
  · intro β c ctx s name content ttl w
    exact store_calls c ctx s name content ttl w
  · intro β c ctx s key value w
    obtain ⟨rest, h1, h2⟩ := store_calls c ctx s key value 0 w
    exact ⟨s.createRequest key 0, rest, h1, by simp [createRequest], h2⟩
  · intro β c fuel ctx s n w
    obtain ⟨out, extra, h1, h2, h3⟩ := Lock_calls c fuel ctx s n w
    refine ⟨out, extra, h1, h2, ?_⟩
    intro r hr
    rw [h3 r hr]
    simp only [createRequest]
    rfl

theorem isIdChar_ne_slash (c : Char) (h : isIdChar c = true) : c ≠ '/' := by
  rintro rfl
  exact absurd h (by decide)

theorem validSecretId_no_slash (id : String) (h : validSecretId id = true) : '/' ∉ id.data := by
  intro hm
  unfold validSecretId at h
  simp only [Bool.and_eq_true, List.all_eq_true] at h
  exact isIdChar_ne_slash _ (h.2 _ hm) rfl

/-- C9: when the listing for `prefix` completes without error and yields the
secrets `items` in that order, `List(prefix, recursive)` returns, with no
error, the leaves of their names in the same order, the leaf of a path being
the part after its last `/`; the whole result is the same for both values of
`recursive`; and when the yielded secrets are the ones stored under the keys
`keys` (ids the service accepts, under one namespace root), the result is
`keys` itself, as many entries as keys. -/
theorem List_returns_leaf_names {β : Type} (c : Client β) (ctx : Context)
    (s : SecretManagerStorage) (pfx : String) (recursive : Bool) (w : World β)
    (items : List Secret)
    (h : (c.ListSecrets ctx ⟨s.getParent, pfx⟩ w.backend).1 = ⟨items, none⟩) :
    (s.List c ctx pfx recursive w).1 = (items.map (fun x => leaf x.Name), none) ∧
    s.List c ctx pfx recursive w = s.List c ctx pfx (!recursive) w ∧
    (∀ (parent : String) (keys : List String), (∀ k ∈ keys, validSecretId k = true) →
      items.map (fun x => x.Name) = keys.map (fun k => parent ++ "/secrets/" ++ k) →
      (s.List c ctx pfx recursive w).1 = (keys, none) ∧
      (s.List c ctx pfx recursive w).1.1.length = keys.length) := by
  have h1 : (s.List c ctx pfx recursive w).1 = (items.map (fun x => lastPart x.Name), none) := by
    unfold SecretManagerStorage.List World.ListSecrets
    simp only [h]
    rw [listLoop_done]
    simp
  refine ⟨?_, rfl, ?_⟩
  · rw [h1]
    simp only [lastPart_eq_leaf]
  · intro parent keys hvalid hnames
    have h2 : items.map (fun x => lastPart x.Name) = keys := by
      have : items.map (fun x => lastPart x.Name) = (items.map (fun x => x.Name)).map lastPart := by
        simp
      rw [this, hnames, List.map_map]
      conv_rhs => rw [← List.map_id keys]
      apply List.map_congr_left
      intro k hk
      simp only [Function.comp, id]
      exact lastPart_secret_path parent k (validSecretId_no_slash k (hvalid k hk))
    rw [h1, h2]
    exact ⟨rfl, rfl⟩

/-- C9, at a concrete input: the reference backend holding two stored keys. -/
theorem List_returns_leaf_names_witness :
    (Backend.client.ListSecrets Context.Background
        ⟨(NewSecretManagerStorage "my-project").getParent, "cert-"⟩
        (⟨[⟨"projects/my-project", "cert-a", some .Automatic, "etag-0", none, [⟨"etag-1", [1]⟩]⟩,
           ⟨"projects/my-project", "cert-b", some .Automatic, "etag-2", none, [⟨"etag-3", [2]⟩]⟩],
          4, []⟩ : Backend)).1 =
      ⟨[⟨"projects/my-project/secrets/cert-a", some .Automatic, "etag-0", none⟩,
        ⟨"projects/my-project/secrets/cert-b", some .Automatic, "etag-2", none⟩], none⟩ ∧
    ((NewSecretManagerStorage "my-project").List Backend.client Context.Background "cert-" true
        ⟨⟨[⟨"projects/my-project", "cert-a", some .Automatic, "etag-0", none, [⟨"etag-1", [1]⟩]⟩,
           ⟨"projects/my-project", "cert-b", some .Automatic, "etag-2", none, [⟨"etag-3", [2]⟩]⟩],
          4, []⟩, []⟩).1 = (["cert-a", "cert-b"], none) :=
  ⟨by decide,
    ((List_returns_leaf_names Backend.client Context.Background
      (NewSecretManagerStorage "my-project") "cert-" true _
      [⟨"projects/my-project/secrets/cert-a", some .Automatic, "etag-0", none⟩,
        ⟨"projects/my-project/secrets/cert-b", some .Automatic, "etag-2", none⟩] (by decide)).2.2
      "projects/my-project" ["cert-a", "cert-b"] (by decide) (by decide)).1⟩

/-- C10: whenever the credentials file opens and its `Read` succeeds,
`Validate` fails with `ErrInvalidJSON` joined with `ErrCredentialsFile`,
whatever the content of the file is: the buffer it reads into has length 0, so
`json.Valid` is given the empty input, which is not valid JSON. -/
theorem Validate_invalid_JSON_for_any_content (env : Env) (c : CaddyGcpSecretManagerStorage)
    (file : OpenFile) (hname : c.CredentialsFile ≠ "")
    (hopen : c.files env c.CredentialsFile = .ok file) (hread : file.failure = none)
    (hcontent : file.content ≠ []) (hjson : env.json_Valid [] = false) :
    c.Validate env = some (.join ErrInvalidJSON ErrCredentialsFile) := by
  unfold CaddyGcpSecretManagerStorage.Validate
  simp [hname, hopen, OpenFile.Read, hread, hcontent, hjson]

/-- C10, at a concrete input: the credentials file holds `{}`, which the
validator in use accepts, and `Validate` still reports `ErrInvalidJSON`. -/
theorem Validate_invalid_JSON_for_any_content_witness :
    (fun bs : Bytes => decide (bs = [123, 125])) [123, 125] = true ∧
    CaddyGcpSecretManagerStorage.Validate
        ⟨fun _ => .error (.errorString "file does not exist"),
          fun bs => decide (bs = [123, 125]), none⟩
        ⟨some (fun name => if name = "credentials.json" then .ok ⟨[123, 125], none⟩
          else .error (.errorString "file does not exist")), "my-project", "credentials.json"⟩ =
      some (.join ErrInvalidJSON ErrCredentialsFile) :=
  ⟨by decide,
    Validate_invalid_JSON_for_any_content _ _ ⟨[123, 125], none⟩ (by decide) (by rfl) rfl
      (by decide) (by decide)⟩

/-- C6: `Lock` never starts a second round of its retry loop: allowed any number
of rounds it returns what it returns when allowed one. When the lock is not held
locally, the key is absent and the context is live, the error of the first
creation attempt is the error `Lock` returns. On the reference backend whose
first `CreateSecret` fails with status 14 (unavailable) and whose later calls
would all succeed, `Lock` allowed eight rounds returns that status after one
`CreateSecret` request and holds no lock, although a further attempt on the
state it leaves creates the lock. -/
theorem Lock_returns_first_creation_error :
    (∀ (β : Type) (c : Client β) (fuel : Nat) (ctx : Context) (s : SecretManagerStorage)
        (n : String) (w : World β), s.Lock c (fuel + 1) ctx n w = s.Lock c 1 ctx n w) ∧
    (∀ (β : Type) (c : Client β) (fuel : Nat) (ctx : Context) (s : SecretManagerStorage)
        (n : String) (w : World β) (err : GoError),
      lookupBool s.locks ("lock-" ++ n) = false →
      (s.findKey c ctx ("lock-" ++ n) w).1 = (none, some ErrKeyNotFound) →
      ctx.Err = none →
      (lockAttempt c ("lock-" ++ n) ctx
        ((s.findKey c ctx ("lock-" ++ n) w).2.1, (s.findKey c ctx ("lock-" ++ n) w).2.2)).1 =
          some err →
      ∃ s1 w1, s.Lock c (fuel + 1) ctx n w = some (some err, s1, w1)) ∧
    (NewSecretManagerStorage "my-project").Lock Backend.client 8 Context.Background "cert"
        ⟨⟨[], 0, [none, some ⟨14, "unavailable"⟩]⟩, []⟩ =
      some (some (.status ⟨14, "unavailable"⟩), NewSecretManagerStorage "my-project",
        ⟨⟨[], 0, []⟩,
          [Call.ListSecrets ⟨"projects/my-project", "name:lock-cert"⟩,
           Call.CreateSecret ⟨"projects/my-project", "lock-cert",
             ⟨"", some .Automatic, "", some (.Ttl ⟨60, 0⟩)⟩⟩]⟩) ∧
    (lockAttempt Backend.client "lock-cert" Context.Background
        (NewSecretManagerStorage "my-project", ⟨⟨[], 0, []⟩, []⟩)).1 = none := by
  refine ⟨?_, ?_, by decide, by decide⟩
  · intro β c fuel ctx s n w
    rw [Lock_eq, Lock_eq]
  · intro β c fuel ctx s n w err hl hk hctx herr
    rw [Lock_eq]
    refine ⟨(lockAttempt c ("lock-" ++ n) ctx
        ((s.findKey c ctx ("lock-" ++ n) w).2.1, (s.findKey c ctx ("lock-" ++ n) w).2.2)).2.1,
      (lockAttempt c ("lock-" ++ n) ctx
        ((s.findKey c ctx ("lock-" ++ n) w).2.1, (s.findKey c ctx ("lock-" ++ n) w).2.2)).2.2, ?_⟩
    rw [← herr]
    simp [hl, hk, hctx, ErrKeyNotFound, errors_Is]

/-! ## Resource paths -/

theorem strings_HasSuffix_append (a b : String) : strings_HasSuffix (a ++ b) b = true := by
  unfold strings_HasSuffix
  simp [String.data_append]

theorem filterMatches_name (parent k : String) :
    filterMatches ("name:" ++ k) (parent ++ "/secrets/" ++ k) = true := by
  unfold filterMatches
  have h1 : ("name:" ++ k).data = 'n' :: 'a' :: 'm' :: 'e' :: ':' :: k.data := by
    simp [String.data_append]
  have h2 : "name:".data = ['n', 'a', 'm', 'e', ':'] := rfl
  simp only [h1, h2, List.take, List.drop, if_true, decide_eq_true_eq, String.data_append]
  exact (List.suffix_append _ _).isInfix

theorem StoredSecret.hasSuffix_id (x : StoredSecret) :
    strings_HasSuffix x.Name x.Id = true := by
  unfold StoredSecret.Name
  exact strings_HasSuffix_append _ _

/-! ## The reference backend, call by call -/

namespace Backend

theorem gate_live (ctx : Context) (b : Backend) (hctx : ctx.Err = none) (hf : b.faults = []) :
    gate ctx b = (none, b) := by
  unfold gate
  simp [hctx, hf]

theorem gate_ok (ctx : Context) (b b1 : Backend) (h : gate ctx b = (none, b1)) :
    ctx.Err = none ∧ b1 = { b with faults := b.faults.tail } := by
  unfold gate at h
  split at h
  · cases h
  · cases h
  · next hctx =>
    refine ⟨hctx, ?_⟩
    split at h
    · next hf =>
      cases h
      cases b
      simp_all
    · next fault rest hf =>
      simp only [Prod.mk.injEq] at h
      rw [← h.2, hf]
      rfl

theorem ListSecrets_live (ctx : Context) (req : ListSecretsRequest) (b : Backend)
    (hctx : ctx.Err = none) (hf : b.faults = []) :
    ListSecrets ctx req b =
      ({ items := (b.secrets.filter
            (fun x => x.Parent = req.Parent && filterMatches req.Filter x.Name)).map
            StoredSecret.toSecret
         failure := none }, b) := by
  unfold ListSecrets
  rw [gate_live ctx b hctx hf]

theorem DeleteSecret_live (ctx : Context) (req : DeleteSecretRequest) (b : Backend)
    (x : StoredSecret) (hctx : ctx.Err = none) (hf : b.faults = [])
    (hx : b.secrets.find? (fun y => y.Name = req.Name) = some x) (he : req.Etag = x.Etag) :
    DeleteSecret ctx req b =
      (none, { b with secrets := b.secrets.filter (fun y => y.Name ≠ req.Name) }) := by
  unfold DeleteSecret
  rw [gate_live ctx b hctx hf]
  simp [hx, he]

theorem CreateSecret_ok (ctx : Context) (req : CreateSecretRequest) (b b1 : Backend)
    (secret : Secret) (h : CreateSecret ctx req b = (.ok secret, b1)) :
    ctx.Err = none ∧ validParent req.Parent = true ∧ validSecretId req.SecretId = true ∧
    (∀ x ∈ b.secrets, ¬(x.Parent = req.Parent ∧ x.Id = req.SecretId)) ∧
    secret = (StoredSecret.mk req.Parent req.SecretId req.Secret.Replication (etag b.next)
      req.Secret.Expiration []).toSecret ∧
    b1 = ⟨b.secrets ++ [StoredSecret.mk req.Parent req.SecretId req.Secret.Replication
      (etag b.next) req.Secret.Expiration []], b.next + 1, b.faults.tail⟩ := by
  unfold CreateSecret at h
  split at h
  · cases h
  · next b' hg =>
    obtain ⟨hctx, hb'⟩ := gate_ok ctx b b' hg
    subst hb'
    split at h
    · cases h
    · next hv =>
      split at h
      · cases h
      · next hex =>
        simp only [Prod.mk.injEq, Except.ok.injEq] at h
        simp only [Bool.and_eq_true, Bool.not_eq_false] at hv
        simp only [List.any_eq_true, decide_eq_true_eq, not_exists, not_and] at hex
        refine ⟨hctx, ?_, ?_, ?_, h.1.symm, h.2.symm⟩
        · by_contra hc; simp [hc] at hv
        · by_contra hc; simp [hc] at hv
        · intro x hx hpx
          exact hex x hx hpx.1 hpx.2

theorem AddSecretVersion_ok (ctx : Context) (req : AddSecretVersionRequest) (b b1 : Backend)
    (version : SecretVersion) (h : AddSecretVersion ctx req b = (.ok version, b1)) :
    ∃ x, b.secrets.find? (fun x => x.Name = req.Parent) = some x ∧
      version = ⟨versionName x (x.versions.length + 1), etag b.next⟩ ∧
      b1 = ⟨b.secrets.map (fun y =>
          if y.Name = req.Parent then { y with versions := y.versions ++ [⟨etag b.next, req.Data⟩] }
          else y), b.next + 1, b.faults.tail⟩ := by
  unfold AddSecretVersion at h
  split at h
  · cases h
  · next b' hg =>
    obtain ⟨hctx, hb'⟩ := gate_ok ctx b b' hg
    subst hb'
    split at h
    · cases h
    · next x hx =>
      simp only [Prod.mk.injEq, Except.ok.injEq] at h
      exact ⟨x, hx, h.1.symm, h.2.symm⟩

end Backend

namespace Backend

/-- The secret that a successful `store` leaves in the backend. -/
theorem store_ok (ctx : Context) (s s1 : SecretManagerStorage) (name : String) (content : Bytes)
    (ttl : Duration) (w w1 : World Backend)
    (h : s.store client ctx name content ttl w = (none, s1, w1)) :
    ctx.Err = none ∧ validParent s.getParent = true ∧ validSecretId name = true ∧
    (∀ x ∈ w.backend.secrets, ¬(x.Parent = s.getParent ∧ x.Id = name)) ∧
    s1 = { s with etags := s.etags.set name (etag (w.backend.next + 1)) } ∧
    w1.backend = ⟨(w.backend.secrets ++ [StoredSecret.mk s.getParent name (some .Automatic)
          (etag w.backend.next) (s.createRequest name ttl).Secret.Expiration []]).map
        (fun y => if y.Name = s.getParent ++ "/secrets/" ++ name then
          { y with versions := y.versions ++ [⟨etag (w.backend.next + 1), content⟩] } else y),
      w.backend.next + 2, w.backend.faults.tail.tail⟩ ∧
    w1.calls = w.calls ++ [Call.CreateSecret (s.createRequest name ttl),
      Call.AddSecretVersion ⟨s.getParent ++ "/secrets/" ++ name, content⟩] := by
  unfold store at h
  split at h
  · cases h
  · next secret wa hc =>
    split at h
    · cases h
    · next version wb ha =>
      simp only [Prod.mk.injEq] at h
      obtain ⟨-, hs1, hw1⟩ := h
      simp only [World.CreateSecret, client, Prod.mk.injEq] at hc
      obtain ⟨hc1, hc2⟩ := hc
      obtain ⟨hctx, hvp, hvi, hnew, hsecret, hb1⟩ :=
        CreateSecret_ok ctx _ w.backend wa.backend secret (Prod.ext hc1 (by rw [← hc2]))
      simp only [World.AddSecretVersion, client, Prod.mk.injEq] at ha
      obtain ⟨ha1, ha2⟩ := ha
      obtain ⟨x, hx, hversion, hb2⟩ :=
        AddSecretVersion_ok ctx _ wa.backend wb.backend version (Prod.ext ha1 (by rw [← ha2]))
      have hname : secret.Name = s.getParent ++ "/secrets/" ++ name := by
        rw [hsecret]; rfl
      refine ⟨hctx, hvp, hvi, hnew, ?_, ?_, ?_⟩
      · rw [← hs1, hversion, hb1]
      · rw [← hw1, hb2, hb1, hname]
        rfl
      · rw [← hw1, ← ha2, ← hc2, hname]
        simp

/-- After a successful `store` the backend holds a secret with that key. -/
theorem store_ok_mem (ctx : Context) (s s1 : SecretManagerStorage) (name : String)
    (content : Bytes) (ttl : Duration) (w w1 : World Backend)
    (h : s.store client ctx name content ttl w = (none, s1, w1)) :
    ∃ x ∈ w1.backend.secrets, x.Parent = s.getParent ∧ x.Id = name := by
  obtain ⟨-, -, -, -, -, hb, -⟩ := store_ok ctx s s1 name content ttl w w1 h
  rw [hb]
  simp only [List.map_append, List.map_cons, List.map_nil, List.mem_append, List.mem_singleton]
  refine ⟨_, Or.inr rfl, ?_⟩
  split <;> exact ⟨rfl, rfl⟩

/-- After a successful `store` on a backend that held no secret whose path ends
in the key, the backend holds the old secrets and then the new one with its one
version. -/
theorem store_ok_fresh (ctx : Context) (s s1 : SecretManagerStorage) (name : String)
    (content : Bytes) (ttl : Duration) (w w1 : World Backend)
    (h : s.store client ctx name content ttl w = (none, s1, w1))
    (hfree : ∀ x ∈ w.backend.secrets, strings_HasSuffix x.Name name = false) :
    w1.backend = ⟨w.backend.secrets ++ [StoredSecret.mk s.getParent name (some .Automatic)
          (etag w.backend.next) (s.createRequest name ttl).Secret.Expiration
          [⟨etag (w.backend.next + 1), content⟩]],
      w.backend.next + 2, w.backend.faults.tail.tail⟩ := by
  obtain ⟨-, -, -, -, -, hb, -⟩ := store_ok ctx s s1 name content ttl w w1 h
  rw [hb]
  congr 1
  rw [List.map_append]
  congr 1
  · conv_rhs => rw [← List.map_id w.backend.secrets]
    apply List.map_congr_left
    intro y hy
    have : y.Name ≠ s.getParent ++ "/secrets/" ++ name := by
      intro e
      have := hfree y hy
      rw [e, strings_HasSuffix_append] at this
      cases this
    simp [this]
  · simp [StoredSecret.Name]

end Backend

/-- A `Lock` that returns no error has created the secret through `store`. -/
theorem Lock_ok_store {β : Type} (c : Client β) (fuel : Nat) (ctx : Context)
    (s s1 : SecretManagerStorage) (n : String) (w w1 : World β)
    (h : s.Lock c fuel ctx n w = some (none, s1, w1)) :
    lookupBool s.locks ("lock-" ++ n) = false ∧ ctx.Err = none ∧
    (s.findKey c ctx ("lock-" ++ n) w).1.1 = none ∧
    ∃ sx, (s.findKey c ctx ("lock-" ++ n) w).2.1.store c ctx ("lock-" ++ n) [116, 114, 117, 101]
        (1 * time_Minute) (s.findKey c ctx ("lock-" ++ n) w).2.2 = (none, sx, w1) ∧
      s1 = { sx with locks := sx.locks.set ("lock-" ++ n) true } := by
  cases fuel with
  | zero =>
    unfold Lock at h
    simp only at h
    split at h
    · cases h
    · split at h
      · next hany =>
        simp only [Option.some.injEq, Prod.mk.injEq] at h
        rw [h.1] at hany
        simp at hany
      · split at h
        · cases h
        · simp [retry_Fibonacci] at h
  | succ fuel =>
    rw [Lock_eq] at h
    simp only [Option.some.injEq] at h
    by_cases hl : lookupBool s.locks ("lock-" ++ n) = true
    · rw [if_pos hl] at h; cases h
    · rw [if_neg hl] at h
      by_cases ha : (s.findKey c ctx ("lock-" ++ n) w).1.2.any
          (fun e => errors_Is e ErrKeyNotFound == false) = true
      · rw [if_pos ha] at h
        simp only [Prod.mk.injEq] at h
        rw [h.1] at ha
        simp at ha
      · rw [if_neg ha] at h
        by_cases hs : (s.findKey c ctx ("lock-" ++ n) w).1.1.isSome = true
        · rw [if_pos hs] at h; cases h
        · rw [if_neg hs] at h
          cases hctx : ctx.Err with
          | some e => rw [hctx] at h; cases h
          | none =>
            rw [hctx] at h
            simp only at h
            refine ⟨by simpa using hl, rfl, by simpa using hs, ?_⟩
            unfold lockAttempt at h
            split at h
            · cases h
            · next sx wx hst =>
              simp only [Prod.mk.injEq, true_and] at h
              refine ⟨sx, ?_, h.1.symm⟩
              rw [← h.2]
              exact hst

/-- C1, amended: two instances `A` and `B` of one project share the reference
backend. If `Lock(n)` returns no error on `A`, and the backend then answers the
listing of `B` (live context, no pending fault), then `Lock(n)` on `B`, whatever
the number of retry rounds it is allowed, returns the error `lock already
exists`, adds no `CreateSecret` request to the trace, and leaves the Lock Table
of `B` as it was, so without a held entry for `lock-n` if it had none. -/
theorem Lock_on_second_instance_fails (fuelA fuelB : Nat) (ctxA ctxB : Context)
    (A A1 B : SecretManagerStorage) (n : String) (w w1 : World Backend)
    (hA : A.Lock Backend.client fuelA ctxA n w = some (none, A1, w1))
    (hshare : B.projectID = A.projectID)
    (hctx : ctxB.Err = none) (hfaults : w1.backend.faults = []) :
    ∃ B1 w2 extra,
      B.Lock Backend.client fuelB ctxB n w1 =
        some (some (.errorf "lock already exists" []), B1, w2) ∧
      w2.calls = w1.calls ++ extra ∧ (∀ r, Call.CreateSecret r ∉ extra) ∧
      B1.locks = B.locks ∧
      (lookupBool B.locks ("lock-" ++ n) = false → lookupBool B1.locks ("lock-" ++ n) = false) := by
  obtain ⟨-, -, -, sx, hstore, -⟩ := Lock_ok_store Backend.client fuelA ctxA A A1 n w w1 hA
  obtain ⟨x, hx, hxp, hxi⟩ := Backend.store_ok_mem ctxA _ sx _ _ _ _ w1 hstore
  replace hxp : x.Parent = A.getParent := by
    rw [hxp]; simp [getParent, findKey_projectID]
  have hparent : B.getParent = A.getParent := by simp [getParent, hshare]
  by_cases hl : lookupBool B.locks ("lock-" ++ n) = true
  · refine ⟨B, w1, [], ?_, by simp, by simp, rfl, fun h => h⟩
    unfold Lock
    simp [hl]
  · have hfound : ∃ secret, (B.findKey Backend.client ctxB ("lock-" ++ n) w1).1 =
        (some secret, none) := by
      rw [findKey_result]
      have hlist : Backend.client.ListSecrets ctxB ⟨B.getParent, "name:" ++ ("lock-" ++ n)⟩
          w1.backend = _ := Backend.ListSecrets_live ctxB _ w1.backend hctx hfaults
      rw [hlist]
      simp only
      have hmem : ∃ y ∈ (w1.backend.secrets.filter (fun x => x.Parent = B.getParent &&
            filterMatches ("name:" ++ ("lock-" ++ n)) x.Name)).map StoredSecret.toSecret,
          strings_HasSuffix y.Name ("lock-" ++ n) = true := by
        refine ⟨x.toSecret, List.mem_map.mpr ⟨x, List.mem_filter.mpr ⟨hx, ?_⟩, rfl⟩, ?_⟩
        · have : x.Name = x.Parent ++ "/secrets/" ++ ("lock-" ++ n) := by
            simp [StoredSecret.Name, hxi]
          simp only [Bool.and_eq_true, decide_eq_true_eq]
          exact ⟨by rw [hxp, hparent], by rw [this]; exact filterMatches_name _ _⟩
        · have := x.hasSuffix_id
          rw [hxi] at this
          exact this
      obtain ⟨secret, h1, -, -⟩ := findKeyLoop_of_some ("lock-" ++ n) _ none hmem
      rw [h1]
      exact ⟨secret, rfl⟩
    obtain ⟨secret, hfk⟩ := hfound
    refine ⟨(B.findKey Backend.client ctxB ("lock-" ++ n) w1).2.1,
      (B.findKey Backend.client ctxB ("lock-" ++ n) w1).2.2,
      [Call.ListSecrets ⟨B.getParent, "name:" ++ ("lock-" ++ n)⟩], ?_,
      findKey_calls _ _ _ _ _, by simp, findKey_locks _ _ _ _ _, ?_⟩
    · unfold Lock
      simp only [hl, Bool.false_eq_true, if_false]
      generalize B.findKey Backend.client ctxB ("lock-" ++ n) w1 = r at hfk ⊢
      obtain ⟨⟨rs, re⟩, r1, r2⟩ := r
      simp only [Prod.mk.injEq] at hfk
      obtain ⟨h1, h2⟩ := hfk
      subst h1 h2
      simp
    · intro h
      rw [findKey_locks]
      exact h

namespace Backend

theorem findKey_absent (ctx : Context) (s : SecretManagerStorage) (name : String)
    (w : World Backend) (hctx : ctx.Err = none) (hf : w.backend.faults = [])
    (hfree : ∀ x ∈ w.backend.secrets, strings_HasSuffix x.Name name = false) :
    s.findKey client ctx name w =
      ((none, some ErrKeyNotFound), s,
        ⟨w.backend, w.calls ++ [Call.ListSecrets ⟨s.getParent, "name:" ++ name⟩]⟩) := by
  unfold findKey World.ListSecrets
  simp only [client, ListSecrets_live ctx _ w.backend hctx hf]
  rw [findKeyLoop_of_none]
  · rfl
  · intro y hy
    obtain ⟨x, hx, rfl⟩ := List.mem_map.mp hy
    exact hfree x (List.mem_filter.mp hx).1

theorem findKey_present (ctx : Context) (s : SecretManagerStorage) (name : String)
    (w : World Backend) (old : List StoredSecret) (x : StoredSecret)
    (hctx : ctx.Err = none) (hf : w.backend.faults = [])
    (hsecrets : w.backend.secrets = old ++ [x])
    (hfree : ∀ y ∈ old, strings_HasSuffix y.Name name = false)
    (hparent : x.Parent = s.getParent) (hid : x.Id = name) :
    s.findKey client ctx name w =
      ((some x.toSecret, none), { s with etags := s.etags.set name x.Etag },
        ⟨w.backend, w.calls ++ [Call.ListSecrets ⟨s.getParent, "name:" ++ name⟩]⟩) := by
  unfold findKey World.ListSecrets
  simp only [client, ListSecrets_live ctx _ w.backend hctx hf, hsecrets, List.filter_append,
    List.map_append]
  have hx : (List.filter (fun y => decide (y.Parent = s.getParent) &&
      filterMatches ("name:" ++ name) y.Name) [x]) = [x] := by
    have : filterMatches ("name:" ++ name) x.Name = true := by
      have hn : x.Name = x.Parent ++ "/secrets/" ++ name := by simp [StoredSecret.Name, hid]
      rw [hn]
      exact filterMatches_name _ _
    simp [hparent, this]
  rw [hx]
  simp only [List.map_cons, List.map_nil]
  rw [findKeyLoop_append]
  · rfl
  · intro y hy
    obtain ⟨z, hz, rfl⟩ := List.mem_map.mp hy
    exact hfree z (List.mem_filter.mp hz).1
  · have := x.hasSuffix_id
    rw [hid] at this
    exact this

theorem find?_name_append (old : List StoredSecret) (x : StoredSecret) (name : String)
    (hfree : ∀ y ∈ old, strings_HasSuffix y.Name name = false) (hid : x.Id = name) :
    (old ++ [x]).find? (fun y => y.Name = x.Name) = some x := by
  rw [List.find?_append]
  have : old.find? (fun y => decide (y.Name = x.Name)) = none := by
    rw [List.find?_eq_none]
    intro y hy
    simp only [decide_eq_true_eq]
    intro e
    have h1 := hfree y hy
    have h2 := x.hasSuffix_id
    rw [hid, ← e, h1] at h2
    cases h2
  simp [this]

theorem filter_name_append (old : List StoredSecret) (x : StoredSecret) (name : String)
    (hfree : ∀ y ∈ old, strings_HasSuffix y.Name name = false) (hid : x.Id = name) :
    (old ++ [x]).filter (fun y => y.Name ≠ x.Name) = old := by
  rw [List.filter_append]
  have h1 : old.filter (fun y => decide (y.Name ≠ x.Name)) = old := by
    rw [List.filter_eq_self]
    intro y hy
    simp only [ne_eq, decide_not, Bool.not_eq_true', decide_eq_false_iff_not]
    intro e
    have h1 := hfree y hy
    have h2 := x.hasSuffix_id
    rw [hid, ← e, h1] at h2
    cases h2
  rw [h1]
  simp

theorem CreateSecret_live (ctx : Context) (req : CreateSecretRequest) (b : Backend)
    (hctx : ctx.Err = none) (hf : b.faults = [])
    (hvp : validParent req.Parent = true) (hvi : validSecretId req.SecretId = true)
    (hrep : req.Secret.Replication.isSome = true)
    (hnew : ∀ x ∈ b.secrets, ¬(x.Parent = req.Parent ∧ x.Id = req.SecretId)) :
    ∃ secret b1, CreateSecret ctx req b = (.ok secret, b1) := by
  unfold CreateSecret
  rw [gate_live ctx b hctx hf]
  have hany : (b.secrets.any (fun x => decide (x.Parent = req.Parent ∧ x.Id = req.SecretId)))
      = false := by
    rw [List.any_eq_false]
    intro x hx
    simpa using hnew x hx
  simp only [hvp, hvi, hrep, hany, Bool.and_self, Bool.true_eq_false, if_false,
    Bool.false_eq_true]
  exact ⟨_, _, rfl⟩

theorem AddSecretVersion_live (ctx : Context) (req : AddSecretVersionRequest) (b : Backend)
    (x : StoredSecret) (hctx : ctx.Err = none) (hf : b.faults = [])
    (hx : b.secrets.find? (fun y => y.Name = req.Parent) = some x) :
    ∃ version b1, AddSecretVersion ctx req b = (.ok version, b1) := by
  unfold AddSecretVersion
  rw [gate_live ctx b hctx hf]
  simp only [hx]
  exact ⟨_, _, rfl⟩

/-- On a live backend that holds no secret whose path ends in `name`, `store`
of a valid key succeeds. -/
theorem store_live (ctx : Context) (s : SecretManagerStorage) (name : String) (content : Bytes)
    (ttl : Duration) (w : World Backend) (hctx : ctx.Err = none) (hf : w.backend.faults = [])
    (hvp : validParent s.getParent = true) (hvi : validSecretId name = true)
    (hfree : ∀ x ∈ w.backend.secrets, strings_HasSuffix x.Name name = false) :
    ∃ s1 w1, s.store client ctx name content ttl w = (none, s1, w1) := by
  have hnew : ∀ x ∈ w.backend.secrets, ¬(x.Parent = s.getParent ∧ x.Id = name) := by
    intro x hx hpx
    have h1 := hfree x hx
    have h2 := x.hasSuffix_id
    rw [hpx.2, h1] at h2
    cases h2
  obtain ⟨secret, b1, hc⟩ := CreateSecret_live ctx (s.createRequest name ttl) w.backend hctx hf
    hvp hvi rfl hnew
  obtain ⟨-, -, -, -, hsecret, hb1⟩ := CreateSecret_ok ctx _ _ _ _ hc
  have hfind : b1.secrets.find? (fun y => y.Name = secret.Name) = some
      (StoredSecret.mk s.getParent name (some .Automatic) (etag w.backend.next)
        (s.createRequest name ttl).Secret.Expiration []) := by
    rw [hb1, hsecret]
    exact find?_name_append w.backend.secrets _ name hfree rfl
  have hf1 : b1.faults = [] := by rw [hb1]; simp [hf]
  obtain ⟨version, b2, ha⟩ := AddSecretVersion_live ctx ⟨secret.Name, content⟩ b1 _ hctx hf1 hfind
  refine ⟨{ s with etags := s.etags.set name version.Etag },
    ⟨b2, (w.calls ++ [Call.CreateSecret (s.createRequest name ttl)]) ++
      [Call.AddSecretVersion ⟨secret.Name, content⟩]⟩, ?_⟩
  unfold store World.CreateSecret World.AddSecretVersion
  simp only [client, hc, ha]

end Backend

/-- C3, amended: on the reference backend with a live context and no pending
fault, for a lock name whose key `lock-n` the service accepts, a backend state
that holds no secret whose path ends in `lock-n`, and an instance whose Lock
Table has no held entry for `lock-n`: `Lock(n)` returns no error, `Unlock(n)` on the resulting instance returns
no error, the `DeleteSecret` request it sends names the lock secret and carries
the etag the backend holds for it, the backend is left with the secrets it had
before, the Lock Table has no entry for `lock-n`, and a further `Unlock(n)`
fails with the called-Unlock-before-Lock error and changes nothing. -/
theorem Lock_then_Unlock (fuel1 fuel2 fuel3 : Nat) (ctx : Context) (s : SecretManagerStorage)
    (n : String) (w : World Backend)
    (hlocal : lookupBool s.locks ("lock-" ++ n) = false)
    (hctx : ctx.Err = none) (hf : w.backend.faults = [])
    (hvp : validParent s.getParent = true) (hvi : validSecretId ("lock-" ++ n) = true)
    (hfree : ∀ x ∈ w.backend.secrets, strings_HasSuffix x.Name ("lock-" ++ n) = false) :
    ∃ s1 w1 s2 w2 x,
      s.Lock Backend.client (fuel1 + 1) ctx n w = some (none, s1, w1) ∧
      s1.Unlock Backend.client (fuel2 + 1) ctx n w1 = some (none, s2, w2) ∧
      x ∈ w1.backend.secrets ∧ x.Name = s.getParent ++ "/secrets/" ++ ("lock-" ++ n) ∧
      w2.calls = w1.calls ++ [Call.ListSecrets ⟨s.getParent, "name:" ++ ("lock-" ++ n)⟩,
        Call.DeleteSecret ⟨x.Name, x.Etag⟩] ∧
      w2.backend.secrets = w.backend.secrets ∧
      s2.locks.get? ("lock-" ++ n) = none ∧
      s2.Unlock Backend.client fuel3 ctx n w2 =
        some (some (.errorf "called Unlock before Lock: '%s' '%+v"
          [Operand.str ("lock-" ++ n), Operand.locks s2.locks]), s2, w2) := by
  -- the run of `Lock`
  have hfk := Backend.findKey_absent ctx s ("lock-" ++ n) w hctx hf hfree
  obtain ⟨sx, w1, hstore⟩ := Backend.store_live ctx s ("lock-" ++ n) [116, 114, 117, 101]
    (1 * time_Minute) ⟨w.backend, w.calls ++ [Call.ListSecrets ⟨s.getParent, "name:" ++ ("lock-" ++ n)⟩]⟩
    hctx hf hvp hvi hfree
  obtain ⟨-, -, -, -, hsx, -, -⟩ := Backend.store_ok ctx s sx _ _ _ _ w1 hstore
  have hb1 := Backend.store_ok_fresh ctx s sx _ _ _ _ w1 hstore hfree
  simp only [hf, List.tail_nil] at hb1
  have hLock : s.Lock Backend.client (fuel1 + 1) ctx n w =
      some (none, { sx with locks := sx.locks.set ("lock-" ++ n) true }, w1) := by
    rw [Lock_eq]
    simp only [hlocal, hfk, hctx, lockAttempt, hstore]
    simp [ErrKeyNotFound, errors_Is]
  -- the run of `Unlock`
  let x : StoredSecret := StoredSecret.mk s.getParent ("lock-" ++ n) (some .Automatic)
    (Backend.etag w.backend.next)
    (s.createRequest ("lock-" ++ n) (1 * time_Minute)).Secret.Expiration
    [⟨Backend.etag (w.backend.next + 1), [116, 114, 117, 101]⟩]
  have hsec : w1.backend.secrets = w.backend.secrets ++ [x] := by rw [hb1]
  have hf1 : w1.backend.faults = [] := by rw [hb1]
  let s1 : SecretManagerStorage := { sx with locks := sx.locks.set ("lock-" ++ n) true }
  have hs1p : s1.getParent = s.getParent := by simp [s1, hsx, getParent]
  have hfk1 := Backend.findKey_present ctx s1 ("lock-" ++ n) w1 w.backend.secrets x hctx hf1 hsec
    hfree hs1p.symm rfl
  have hdel := Backend.DeleteSecret_live ctx ⟨x.Name, x.Etag⟩ w1.backend x hctx hf1
    (by rw [hsec]; exact Backend.find?_name_append _ _ _ hfree rfl) rfl
  have hfilter : w1.backend.secrets.filter (fun y => y.Name ≠ x.Name) = w.backend.secrets := by
    rw [hsec]; exact Backend.filter_name_append _ _ _ hfree rfl
  have hUnlock : s1.Unlock Backend.client (fuel2 + 1) ctx n w1 =
      some (none, { s1 with etags := s1.etags.set ("lock-" ++ n) x.Etag,
                            locks := s1.locks.delete ("lock-" ++ n) },
        ⟨{ w1.backend with secrets := w.backend.secrets },
          w1.calls ++ [Call.ListSecrets ⟨s.getParent, "name:" ++ ("lock-" ++ n)⟩,
            Call.DeleteSecret ⟨x.Name, x.Etag⟩]⟩) := by
    rw [Unlock_eq]
    have hheld : lookupBool s1.locks ("lock-" ++ n) = true := lookupBool_set_self _ _
    simp only [hheld, hctx, unlockAttempt, hfk1, Bool.not_true, Bool.false_eq_true, if_false]
    simp only [lookupString_set_self, World.DeleteSecret, Backend.client]
    rw [show x.toSecret.Name = x.Name from rfl, hdel, hfilter, hs1p]
    simp
  refine ⟨s1, w1, _, _, x, hLock, hUnlock, by rw [hsec]; simp, rfl, rfl, rfl,
    GoMap.get?_delete_self _ _, ?_⟩
  apply Unlock_not_held
  exact lookupBool_delete_self _ _

/-- When the only secret whose path ends in `name` after a successful `store`
is the stored one, no secret had such a path before. -/
theorem Backend.free_of_only (ctx : Context) (s s1 : SecretManagerStorage) (name : String)
    (content : Bytes) (ttl : Duration) (w w1 : World Backend)
    (h : s.store Backend.client ctx name content ttl w = (none, s1, w1))
    (honly : ∀ x ∈ w1.backend.secrets, strings_HasSuffix x.Name name = true →
      x.Parent = s.getParent ∧ x.Id = name) :
    ∀ x ∈ w.backend.secrets, strings_HasSuffix x.Name name = false := by
  obtain ⟨-, -, -, hnew, -, hb, -⟩ := Backend.store_ok ctx s s1 name content ttl w w1 h
  intro x hx
  by_contra hs
  simp only [Bool.not_eq_false] at hs
  apply hnew x hx
  rw [hb] at honly
  by_cases hn : x.Name = s.getParent ++ "/secrets/" ++ name
  · have := honly { x with versions := x.versions ++ [⟨Backend.etag (w.backend.next + 1), content⟩] }
      (by
        simp only [List.map_append, List.mem_append, List.mem_map]
        exact Or.inl ⟨x, hx, by simp [hn]⟩)
      hs
    exact this
  · exact honly x (by
      simp only [List.map_append, List.mem_append, List.mem_map]
      exact Or.inl ⟨x, hx, by simp [hn]⟩) hs

/-- C5: on the reference backend with no pending fault, after `Store(K, V)` has
returned no error and left no other secret whose path ends in `K`, `Delete(K)`
on the same instance returns no error: the Version Cache held the etag of the
version for `K`, and the `DeleteSecret` request carries the etag of the secret,
which the backend accepts; the secret is gone, and a following `Exists(K)` is
false. -/
theorem Store_then_Delete_then_Exists (ctx : Context) (s s1 : SecretManagerStorage)
    (K : String) (V : Bytes) (w w1 : World Backend)
    (hstore : s.Store Backend.client ctx K V w = (none, s1, w1))
    (hf : w.backend.faults = [])
    (honly : ∀ x ∈ w1.backend.secrets, strings_HasSuffix x.Name K = true →
      x.Parent = s.getParent ∧ x.Id = K) :
    ∃ s2 w2 x,
      s1.Delete Backend.client ctx K w1 = (none, s2, w2) ∧
      x ∈ w1.backend.secrets ∧ x.Name = s.getParent ++ "/secrets/" ++ K ∧
      x.Etag = Backend.etag w.backend.next ∧
      lookupString s1.etags K = Backend.etag (w.backend.next + 1) ∧
      w2.calls = w1.calls ++ [Call.ListSecrets ⟨s.getParent, "name:" ++ K⟩,
        Call.DeleteSecret ⟨x.Name, x.Etag⟩] ∧
      w2.backend.secrets = w.backend.secrets ∧
      (s2.Exists Backend.client ctx K w2).1 = false := by
  unfold Store at hstore
  have hfree := Backend.free_of_only ctx s s1 K V 0 w w1 hstore honly
  obtain ⟨hctx, -, -, -, hs1, -, -⟩ := Backend.store_ok ctx s s1 _ _ _ w w1 hstore
  have hb1 := Backend.store_ok_fresh ctx s s1 _ _ _ w w1 hstore hfree
  simp only [hf, List.tail_nil] at hb1
  let x : StoredSecret := StoredSecret.mk s.getParent K (some .Automatic)
    (Backend.etag w.backend.next) (s.createRequest K 0).Secret.Expiration
    [⟨Backend.etag (w.backend.next + 1), V⟩]
  have hsec : w1.backend.secrets = w.backend.secrets ++ [x] := by rw [hb1]
  have hf1 : w1.backend.faults = [] := by rw [hb1]
  have hs1p : s1.getParent = s.getParent := by simp [hs1, getParent]
  have hfk1 := Backend.findKey_present ctx s1 K w1 w.backend.secrets x hctx hf1 hsec
    hfree hs1p.symm rfl
  have hdel := Backend.DeleteSecret_live ctx ⟨x.Name, x.Etag⟩ w1.backend x hctx hf1
    (by rw [hsec]; exact Backend.find?_name_append _ _ _ hfree rfl) rfl
  have hfilter : w1.backend.secrets.filter (fun y => y.Name ≠ x.Name) = w.backend.secrets := by
    rw [hsec]; exact Backend.filter_name_append _ _ _ hfree rfl
  have hDelete : s1.Delete Backend.client ctx K w1 =
      (none, { s1 with etags := s1.etags.set K x.Etag },
        ⟨{ w1.backend with secrets := w.backend.secrets },
          w1.calls ++ [Call.ListSecrets ⟨s.getParent, "name:" ++ K⟩,
            Call.DeleteSecret ⟨x.Name, x.Etag⟩]⟩) := by
    unfold Delete
    simp only [hfk1]
    simp only [lookupString_set_self, World.DeleteSecret, Backend.client]
    rw [show x.toSecret.Name = x.Name from rfl, hdel, hfilter, hs1p]
    simp
  refine ⟨_, _, x, hDelete, by rw [hsec]; simp, rfl, rfl, ?_, rfl, rfl, ?_⟩
  · rw [hs1]
    exact lookupString_set_self _ _ _
  · unfold SecretManagerStorage.Exists
    have := Backend.findKey_absent ctx { s1 with etags := s1.etags.set K x.Etag } K
      ⟨{ w1.backend with secrets := w.backend.secrets },
        w1.calls ++ [Call.ListSecrets ⟨s.getParent, "name:" ++ K⟩,
          Call.DeleteSecret ⟨x.Name, x.Etag⟩]⟩ hctx hf1 hfree
    simp only [this, Option.isSome_none]

namespace Backend

theorem validParent_data (parent : String) (h : validParent parent = true) :
    parent.data = "projects".data ++ '/' :: parent.data.drop 9 ∧ '/' ∉ parent.data.drop 9 := by
  unfold validParent at h
  simp only [Bool.and_eq_true, decide_eq_true_eq, List.all_eq_true] at h
  obtain ⟨⟨h1, -⟩, h3⟩ := h
  constructor
  · conv_lhs => rw [← List.take_append_drop 9 parent.data, h1]
    rfl
  · intro hm
    exact isIdChar_ne_slash _ (h3 _ hm) rfl

theorem parseVersionPath_data (path parent id version : String)
    (hvp : validParent parent = true) (hvi : validSecretId id = true)
    (hver : '/' ∉ version.data)
    (hpath : path.data =
      parent.data ++ ("/secrets/".data ++ (id.data ++ ("/versions/".data ++ version.data)))) :
    parseVersionPath path = some (parent, id, version) := by
  obtain ⟨hp, hpn⟩ := validParent_data parent hvp
  have hid := validSecretId_no_slash id hvi
  have h1 : path.data = "projects".data ++ '/' :: (parent.data.drop 9 ++ '/' ::
      ("secrets".data ++ '/' :: (id.data ++ '/' :: ("versions".data ++ '/' :: version.data)))) := by
    rw [hpath]
    conv_lhs => rw [hp]
    simp
  unfold parseVersionPath
  rw [h1, splitSlash_append_slash _ _ (by decide), splitSlash_append_slash _ _ hpn,
    splitSlash_append_slash _ _ (by decide), splitSlash_append_slash _ _ hid,
    splitSlash_append_slash _ _ (by decide), splitSlash_of_not_mem _ hver]
  simp only [and_self, if_true, Option.some.injEq, Prod.mk.injEq]
  refine ⟨?_, trivial⟩
  apply String.ext
  exact hp.symm

theorem find?_key_append (old : List StoredSecret) (x : StoredSecret) (parent id : String)
    (hnew : ∀ y ∈ old, ¬(y.Parent = parent ∧ y.Id = id))
    (hp : x.Parent = parent) (hi : x.Id = id) :
    (old ++ [x]).find? (fun y => y.Parent = parent ∧ y.Id = id) = some x := by
  rw [List.find?_append]
  have : old.find? (fun y => decide (y.Parent = parent ∧ y.Id = id)) = none := by
    rw [List.find?_eq_none]
    intro y hy
    simpa using hnew y hy
  rw [this]
  simp [hp, hi]

end Backend

/-- C2, amended: on the reference backend, after `Store(K, V)` has returned no
error on instance `A` and left no other secret whose path ends in `K`, a
`Load(K)` on an instance `B` of the same project, with a live context and no
pending fault, returns exactly `V` and no error. -/
theorem Store_then_Load (ctxA ctxB : Context) (A A1 B : SecretManagerStorage) (K : String)
    (V : Bytes) (w w1 : World Backend)
    (hstore : A.Store Backend.client ctxA K V w = (none, A1, w1))
    (hshare : B.projectID = A.projectID)
    (hctx : ctxB.Err = none) (hf : w1.backend.faults = [])
    (honly : ∀ x ∈ w1.backend.secrets, strings_HasSuffix x.Name K = true →
      x.Parent = A.getParent ∧ x.Id = K) :
    ∃ B1 w2, B.Load Backend.client ctxB K w1 = ((V, none), B1, w2) := by
  unfold Store at hstore
  have hfree := Backend.free_of_only ctxA A A1 K V 0 w w1 hstore honly
  obtain ⟨-, hvp, hvi, hnew, -, -, -⟩ := Backend.store_ok ctxA A A1 _ _ _ w w1 hstore
  have hb1 := Backend.store_ok_fresh ctxA A A1 _ _ _ w w1 hstore hfree
  let x : StoredSecret := StoredSecret.mk A.getParent K (some .Automatic)
    (Backend.etag w.backend.next) (A.createRequest K 0).Secret.Expiration
    [⟨Backend.etag (w.backend.next + 1), V⟩]
  have hsec : w1.backend.secrets = w.backend.secrets ++ [x] := by rw [hb1]
  have hBp : B.getParent = A.getParent := by simp [getParent, hshare]
  have hfk := Backend.findKey_present ctxB B K w1 w.backend.secrets x hctx hf hsec
    hfree hBp.symm rfl
  have hfind := Backend.find?_key_append w.backend.secrets x A.getParent K hnew rfl rfl
  have hlatest : Backend.resolveVersion
      ("projects/" ++ A.projectID ++ "/secrets/" ++ K ++ "/" ++ "versions" ++ "/" ++ "latest")
      w1.backend = some (x, 1, ⟨Backend.etag (w.backend.next + 1), V⟩) := by
    unfold Backend.resolveVersion
    rw [Backend.parseVersionPath_data _ A.getParent K "latest" hvp hvi (by decide)
      (by simp [getParent, String.data_append])]
    simp only [hsec, hfind]
    rfl
  have hone : Backend.resolveVersion (Backend.versionName x 1) w1.backend =
      some (x, 1, ⟨Backend.etag (w.backend.next + 1), V⟩) := by
    unfold Backend.resolveVersion
    rw [Backend.parseVersionPath_data _ A.getParent K (toString 1) hvp hvi (by decide)
      (by simp [Backend.versionName, StoredSecret.Name, x, String.data_append])]
    have ht : (toString 1 : String) ≠ "latest" := by decide
    simp only [hsec, hfind, ht, if_false]
    simp [List.enum, List.enumFrom]
  suffices h : (B.Load Backend.client ctxB K w1).1 = (V, none) from
    ⟨(B.Load Backend.client ctxB K w1).2.1, (B.Load Backend.client ctxB K w1).2.2, by rw [← h]⟩
  unfold Load
  rw [hfk]
  have hg := Backend.gate_live ctxB w1.backend hctx hf
  simp only [readLatest, url_JoinPath, List.foldl, World.GetSecretVersion, Backend.client,
    Backend.GetSecretVersion, hg]
  rw [show x.toSecret.Name = "projects/" ++ A.projectID ++ "/secrets/" ++ K from rfl]
  simp only [hlatest, World.AccessSecretVersion, Backend.AccessSecretVersion, hg, hone]

/-- C1, as stated, fails for an instance `B` that already holds the lock. `B`
locks `cert`; the lock secret is deleted through `Delete("lock-cert")` on `A`
(or would expire after its minute); `Lock("cert")` then returns no error on
`A`; `Lock("cert")` on `B` returns `lock already exists` at its local gate,
sends nothing, and the Lock Table of `B` still has the held entry. -/
theorem Lock_on_holder_keeps_entry :
    sampleStorage.Lock Backend.client 1 Context.Background "cert" ⟨⟨[], 0, []⟩, []⟩ =
      some (none, sampleHolder, ⟨⟨[sampleLock], 2, []⟩, sampleLockCalls⟩) ∧
    (sampleStorage.Delete Backend.client Context.Background "lock-cert"
        ⟨⟨[sampleLock], 2, []⟩, []⟩).1 = none ∧
    (sampleStorage.Delete Backend.client Context.Background "lock-cert"
        ⟨⟨[sampleLock], 2, []⟩, []⟩).2.2.backend = ⟨[], 2, []⟩ ∧
    sampleStorage.Lock Backend.client 1 Context.Background "cert" ⟨⟨[], 2, []⟩, []⟩ =
      some (none, ⟨"my-project", [("lock-cert", "etag-3")], [("lock-cert", true)]⟩,
        ⟨⟨[sampleRelock], 4, []⟩, sampleLockCalls⟩) ∧
    sampleHolder.Lock Backend.client 1 Context.Background "cert"
        ⟨⟨[sampleRelock], 4, []⟩, sampleLockCalls⟩ =
      some (some (.errorf "lock already exists" []), sampleHolder,
        ⟨⟨[sampleRelock], 4, []⟩, sampleLockCalls⟩) ∧
    lookupBool sampleHolder.locks "lock-cert" = true := by
  decide

/-- C1 amended, at a concrete input: two fresh instances of one project over the
empty reference backend. -/
theorem Lock_on_second_instance_fails_witness :
    sampleStorage.Lock Backend.client 1 Context.Background "cert" ⟨⟨[], 0, []⟩, []⟩ =
      some (none, sampleHolder, ⟨⟨[sampleLock], 2, []⟩, sampleLockCalls⟩) ∧
    ∃ B1 w2 extra,
      sampleStorage.Lock Backend.client 1 Context.Background "cert"
          ⟨⟨[sampleLock], 2, []⟩, sampleLockCalls⟩ =
        some (some (.errorf "lock already exists" []), B1, w2) ∧
      w2.calls = sampleLockCalls ++ extra ∧
      (∀ r, Call.CreateSecret r ∉ extra) ∧
      B1.locks = sampleStorage.locks ∧
      (lookupBool sampleStorage.locks ("lock-" ++ "cert") = false →
        lookupBool B1.locks ("lock-" ++ "cert") = false) :=
  ⟨by decide,
    Lock_on_second_instance_fails 1 1 Context.Background Context.Background sampleStorage
      sampleHolder sampleStorage "cert"
      ⟨⟨[], 0, []⟩, []⟩ ⟨⟨[sampleLock], 2, []⟩, sampleLockCalls⟩ (by decide) rfl rfl rfl⟩

/-- C2, as stated, fails: the backend already holds the secret `backup-key`,
whose path ends in `key`; `Store("key", [1, 2])` returns no error, and
`Load("key")` on a second instance returns the payload `[9]` of `backup-key`
with no error, not `[1, 2]`. -/
theorem Load_returns_other_secret :
    (sampleStorage.Store Backend.client Context.Background "key" [1, 2]
        ⟨⟨[sampleBackup], 2, []⟩, []⟩).1 = none ∧
    (sampleStorage.Load Backend.client Context.Background "key"
        (sampleStorage.Store Backend.client Context.Background "key" [1, 2]
          ⟨⟨[sampleBackup], 2, []⟩, []⟩).2.2).1 = ([9], none) ∧
    (sampleStorage.Load Backend.client Context.Background "key"
        (sampleStorage.Store Backend.client Context.Background "key" [1, 2]
          ⟨⟨[sampleBackup], 2, []⟩, []⟩).2.2).1 ≠ ([1, 2], none) := by
  decide

/-- C2 amended, at a concrete input: the backend holds the unrelated secret
`other`, and `Load` returns the stored bytes. -/
theorem Store_then_Load_witness :
    sampleStorage.Store Backend.client Context.Background "key" [1, 2]
        ⟨⟨[sampleOther], 2, []⟩, []⟩ =
      (none, ⟨"my-project", [("key", "etag-3")], []⟩,
        ⟨⟨[sampleOther, sampleKey], 4, []⟩, sampleStoreCalls⟩) ∧
    ∃ B1 w2, sampleStorage.Load Backend.client Context.Background "key"
        ⟨⟨[sampleOther, sampleKey], 4, []⟩, sampleStoreCalls⟩ = (([1, 2], none), B1, w2) :=
  ⟨by decide,
    Store_then_Load Context.Background Context.Background sampleStorage
      ⟨"my-project", [("key", "etag-3")], []⟩ sampleStorage "key" [1, 2]
      ⟨⟨[sampleOther], 2, []⟩, []⟩ ⟨⟨[sampleOther, sampleKey], 4, []⟩, sampleStoreCalls⟩
      (by decide) rfl rfl rfl (by decide)⟩

/-- C3, as stated, fails for an instance that still holds the lock locally. The
instance locks `cert`; the lock secret then leaves the backend without an
`Unlock` (it expires after its minute, or is deleted through
`Delete("lock-cert")` as here). The backend now holds no secret whose path ends
in `lock-cert` and has no pending fault, yet `Lock("cert")` on that instance
returns `lock already exists` at its local gate, without any backend call. -/
theorem Lock_on_stale_holder_fails :
    sampleStorage.Lock Backend.client 1 Context.Background "cert" ⟨⟨[], 0, []⟩, []⟩ =
      some (none, sampleHolder, ⟨⟨[sampleLock], 2, []⟩, sampleLockCalls⟩) ∧
    (sampleStorage.Delete Backend.client Context.Background "lock-cert"
        ⟨⟨[sampleLock], 2, []⟩, sampleLockCalls⟩).1 = none ∧
    (sampleStorage.Delete Backend.client Context.Background "lock-cert"
        ⟨⟨[sampleLock], 2, []⟩, sampleLockCalls⟩).2.2.backend = ⟨[], 2, []⟩ ∧
    (∀ x ∈ (⟨[], 2, []⟩ : Backend).secrets, strings_HasSuffix x.Name "lock-cert" = false) ∧
    (⟨[], 2, []⟩ : Backend).faults = [] ∧
    validParent sampleHolder.getParent = true ∧ validSecretId "lock-cert" = true ∧
    sampleHolder.Lock Backend.client 1 Context.Background "cert" ⟨⟨[], 2, []⟩, []⟩ =
      some (some (.errorf "lock already exists" []), sampleHolder, ⟨⟨[], 2, []⟩, []⟩) ∧
    (∀ fuel s1 w1, sampleHolder.Lock Backend.client fuel Context.Background "cert"
        ⟨⟨[], 2, []⟩, []⟩ ≠ some (none, s1, w1)) := by
  refine ⟨by decide, by decide, by decide, by decide, by decide, by decide, by decide,
    by decide, ?_⟩
  intro fuel s1 w1 h
  have := (Lock_ok_store Backend.client fuel Context.Background sampleHolder s1 "cert"
    ⟨⟨[], 2, []⟩, []⟩ w1 h).1
  exact absurd this (by decide)

/-- C3 amended, at a concrete input: a fresh instance over the reference backend
holding one unrelated secret. -/
theorem Lock_then_Unlock_witness :
    lookupBool sampleStorage.locks ("lock-" ++ "cert") = false ∧
    validSecretId ("lock-" ++ "cert") = true ∧
    ∃ s1 w1 s2 w2 x,
      sampleStorage.Lock Backend.client (0 + 1) Context.Background "cert"
          ⟨⟨[sampleOther], 2, []⟩, []⟩ = some (none, s1, w1) ∧
      s1.Unlock Backend.client (0 + 1) Context.Background "cert" w1 = some (none, s2, w2) ∧
      x ∈ w1.backend.secrets ∧
      x.Name = sampleStorage.getParent ++ "/secrets/" ++ ("lock-" ++ "cert") ∧
      w2.calls = w1.calls ++
        [Call.ListSecrets ⟨sampleStorage.getParent, "name:" ++ ("lock-" ++ "cert")⟩,
         Call.DeleteSecret ⟨x.Name, x.Etag⟩] ∧
      w2.backend.secrets = [sampleOther] ∧
      s2.locks.get? ("lock-" ++ "cert") = none ∧
      s2.Unlock Backend.client 0 Context.Background "cert" w2 =
        some (some (.errorf "called Unlock before Lock: '%s' '%+v"
          [Operand.str ("lock-" ++ "cert"), Operand.locks s2.locks]), s2, w2) :=
  ⟨by decide, by decide,
    Lock_then_Unlock 0 0 0 Context.Background sampleStorage "cert"
      ⟨⟨[sampleOther], 2, []⟩, []⟩
      (by decide) rfl rfl (by decide) (by decide) (by decide)⟩

/-- C5, at a concrete input: a fresh instance over the reference backend
holding one unrelated secret. -/
theorem Store_then_Delete_then_Exists_witness :
    sampleStorage.Store Backend.client Context.Background "key" [1, 2]
        ⟨⟨[sampleOther], 2, []⟩, []⟩ =
      (none, ⟨"my-project", [("key", "etag-3")], []⟩,
        ⟨⟨[sampleOther, sampleKey], 4, []⟩, sampleStoreCalls⟩) ∧
    ∃ s2 w2 x,
      SecretManagerStorage.Delete Backend.client Context.Background
          ⟨"my-project", [("key", "etag-3")], []⟩ "key"
          ⟨⟨[sampleOther, sampleKey], 4, []⟩, sampleStoreCalls⟩ = (none, s2, w2) ∧
      x ∈ [sampleOther, sampleKey] ∧
      x.Name = sampleStorage.getParent ++ "/secrets/" ++ "key" ∧
      x.Etag = Backend.etag 2 ∧
      lookupString [("key", "etag-3")] "key" = Backend.etag (2 + 1) ∧
      w2.calls = sampleStoreCalls ++
        [Call.ListSecrets ⟨sampleStorage.getParent, "name:" ++ "key"⟩,
         Call.DeleteSecret ⟨x.Name, x.Etag⟩] ∧
      w2.backend.secrets = [sampleOther] ∧
      (s2.Exists Backend.client Context.Background "key" w2).1 = false :=
  ⟨by decide,
    Store_then_Delete_then_Exists Context.Background sampleStorage
      ⟨"my-project", [("key", "etag-3")], []⟩ "key" [1, 2]
      ⟨⟨[sampleOther], 2, []⟩, []⟩ ⟨⟨[sampleOther, sampleKey], 4, []⟩, sampleStoreCalls⟩
      (by decide) rfl (by decide)⟩

end CaddyGcpSecretManager
